import Mathlib

/-!
Verification of the extension lifecycle manager (`ExtensionsService`) found in
chrome/browser/extensions/extensions_service.cc.

The service state is embedded shallowly: the enabled list (`extensions_`), the
disabled list (`disabled_extensions_`), the pending map (`pending_extensions_`),
the unloaded-path map (`unloaded_extension_paths_`) and the preference store
(`extension_prefs_`) become fields of a `ServiceState` record, and each method of
the C++ class becomes a state-transforming function.  Cross-thread posts
(file deletions, CrxInstaller creations, backend load requests) are modelled as
append-only request logs, and the notification bus and the diagnostic channel
(LOG / NOTREACHED / ExtensionErrorReporter) as append-only event lists, since the
service only ever emits into them.  Collaborators whose code is outside the
provided sources (ExtensionDOMUI URL overrides, DevToolsManager, event routers,
ExtensionDataDeleter) perform no mutation of the modelled state and are noted in
comments where their calls occur.  The transient write-only flag
`being_upgraded_` has no reader inside the provided sources and is not modelled.
-/

namespace ExtSvc

/-- Install location of an extension, from the `Extension::Location` enum used by
extensions_service.cc: standard install, the two external registrations, a
user-loaded unpacked extension, and a packaged component. -/
inductive Location where
  | internal
  | externalPref
  | externalRegistry
  | load
  | component
deriving DecidableEq, Repr

/-- Modelled from the spec: `Extension::IsExternalLocation` is defined in
chrome/common/extensions/extension.cc, which is not among the provided sources.
The spec names the two external install locations: registered via preferences
and registered via the platform registry. -/
def Location.isExternal : Location → Bool
  | .externalPref => true
  | .externalRegistry => true
  | _ => false

/-- Version of an extension.  Modelled from the spec: `base::Version` is outside
the provided sources; it is a dotted sequence of numeric components compared
component-wise. -/
abbrev Version := List Nat

/-- Modelled from the spec: `Version::CompareTo` compares component-wise with
missing trailing components counting as zero, returning -1, 0 or 1. -/
def Version.compareTo : Version → Version → Int
  | [], w => if w.all (fun b => b == 0) then 0 else -1
  | v, [] => if v.all (fun a => a == 0) then 0 else 1
  | a :: as, b :: bs =>
    if a < b then -1 else if b < a then 1 else Version.compareTo as bs

/-- In-memory record of an installed extension, holding the fields of
`Extension` that extensions_service.cc reads: identifier, version, install
location, theme flag, on-disk path and declared api permissions. -/
structure Extension where
  id : String
  version : Version
  location : Location
  isTheme : Bool
  path : String
  apiPermissions : List String
deriving DecidableEq, Repr

/-- Modelled from the spec: `Extension::IsPrivilegeIncrease` is defined in
chrome/common/extensions/extension.cc, which is not among the provided sources.
The spec describes it as testing whether the new permission set is a strict
escalation over the old one: some permission declared by the new record is
absent from the old record. -/
def Extension.IsPrivilegeIncrease (old ext : Extension) : Bool :=
  ext.apiPermissions.any (fun p => !(old.apiPermissions.contains p))

/-- Modelled from the spec: `Extension::IdIsValid` is defined outside the
provided sources; the spec treats every supplied identifier as subject to the
blacklist and says nothing about identifier validity, so validity is modelled
as always true. -/
def Extension.IdIsValid (_id : String) : Bool := true

/-- Entry of the pending-extensions map (`PendingExtensionInfo` in the source):
update source locator, expected version, theme flag and silent-install flag. -/
structure PendingExtensionInfo where
  updateUrl : String
  version : Version
  isTheme : Bool
  installSilently : Bool
deriving DecidableEq, Repr

/-- Persisted per-extension enable state (`Extension::State` values that the
service stores and reads back; any other stored value is NOTREACHED in the
source and, per the spec, a fatal invariant violation). -/
inductive ExtensionState where
  | enabled
  | disabled
deriving DecidableEq, Repr

/-- Association-list lookup, modelling `std::map::find`. -/
def lookupAssoc {α : Type} (l : List (String × α)) (k : String) : Option α :=
  (l.find? (fun p => p.1 == k)).map (fun p => p.2)

/-- Association-list erase, modelling `std::map::erase`; map keys are unique so
removing every pair with the key is the same as removing the one entry. -/
def eraseAssoc {α : Type} (l : List (String × α)) (k : String) : List (String × α) :=
  l.filter (fun p => p.1 != k)

/-- Association-list overwrite, modelling `std::map::operator[]` assignment. -/
def setAssoc {α : Type} (l : List (String × α)) (k : String) (v : α) : List (String × α) :=
  eraseAssoc l k ++ [(k, v)]

/-- Modelled from the spec: the preference store collaborator (`ExtensionPrefs`,
outside the provided sources) persists per-identifier enable state, the
permission-escalation flag, the blacklist set, install metadata (the manifest,
keyed by identifier, with the install path) and a log of uninstalls. -/
structure ExtensionPrefs where
  stateMap : List (String × ExtensionState)
  escalatedMap : List (String × Bool)
  blacklist : List String
  installedManifests : List (String × String)
  uninstallLog : List (String × Bool)
deriving DecidableEq, Repr

/-- Modelled from the spec: `ExtensionPrefs::GetExtensionState` returns the
stored enable state, with enabled as the default for a first install. -/
def ExtensionPrefs.getExtensionState (prefs : ExtensionPrefs) (id : String) : ExtensionState :=
  (lookupAssoc prefs.stateMap id).getD .enabled

/-- Modelled from the spec: `ExtensionPrefs::SetExtensionState` persists the
enable state for the extension (the source passes the extension record and the
store keys by its identifier). -/
def ExtensionPrefs.setExtensionState (prefs : ExtensionPrefs) (id : String)
    (st : ExtensionState) : ExtensionPrefs :=
  { prefs with stateMap := setAssoc prefs.stateMap id st }

/-- Modelled from the spec: `ExtensionPrefs::SetDidExtensionEscalatePermissions`
persists the permissions-escalated flag for the extension. -/
def ExtensionPrefs.setDidExtensionEscalatePermissions (prefs : ExtensionPrefs)
    (id : String) (b : Bool) : ExtensionPrefs :=
  { prefs with escalatedMap := setAssoc prefs.escalatedMap id b }

/-- Modelled from the spec: `ExtensionPrefs::UpdateBlacklist` persists the given
blacklist set. -/
def ExtensionPrefs.updateBlacklist (prefs : ExtensionPrefs)
    (blacklistSet : List String) : ExtensionPrefs :=
  { prefs with blacklist := blacklistSet }

/-- Modelled from the spec: `ExtensionPrefs::OnExtensionInstalled` persists the
install metadata for the extension (its manifest, recorded here by its install
path), leaving the persisted enable state untouched. -/
def ExtensionPrefs.onExtensionInstalled (prefs : ExtensionPrefs)
    (ext : Extension) : ExtensionPrefs :=
  { prefs with installedManifests := setAssoc prefs.installedManifests ext.id ext.path }

/-- Modelled from the spec: `ExtensionPrefs::OnExtensionUninstalled` persists
the uninstall, dropping the install metadata and logging whether the removal
was host-initiated (external). -/
def ExtensionPrefs.onExtensionUninstalled (prefs : ExtensionPrefs)
    (id : String) (externalUninstall : Bool) : ExtensionPrefs :=
  { prefs with installedManifests := eraseAssoc prefs.installedManifests id,
               uninstallLog := prefs.uninstallLog ++ [(id, externalUninstall)] }

/-- Notifications emitted on the notification bus by extensions_service.cc,
carrying the identifier of the extension concerned (or the error text). -/
inductive Notif where
  | extensionLoaded (id : String)
  | extensionUnloaded (id : String)
  | extensionUnloadedDisabled (id : String)
  | extensionUpdateDisabled (id : String)
  | extensionInstalled (id : String)
  | themeInstalled (id : String)
  | extensionOverinstallError (msg : String)
  | extensionInstallError (msg : String)
deriving DecidableEq, Repr

/-- Selector for the notification type argument of `ReportExtensionLoadError`
(the source passes either EXTENSION_INSTALL_ERROR or
EXTENSION_OVERINSTALL_ERROR). -/
inductive LoadErrorKind where
  | installError
  | overinstallError
deriving DecidableEq, Repr

/-- Parameters of a `CrxInstaller` created by the service; creating one and
calling `InstallCrx` is modelled as appending this record to a request log,
since the installer runs asynchronously outside the service. -/
structure CrxInstallRequest where
  crxPath : String
  expectedId : Option String
  installSource : Option Location
  allowPrivilegeIncrease : Bool
  deleteSource : Bool
  silent : Bool
  originalUrl : Option String
deriving DecidableEq, Repr

/-- State of the `ExtensionsService`: the registries and preference store it
owns, plus append-only logs for its outward effects (notifications, diagnostic
messages, scheduled file deletions, installer creations, backend load requests,
uninstall and data-deletion requests, and the crash-reporter snapshot). -/
structure ServiceState where
  extensions : List Extension
  disabledExtensions : List Extension
  pendingExtensions : List (String × PendingExtensionInfo)
  unloadedExtensionPaths : List (String × String)
  prefs : ExtensionPrefs
  extensionsEnabled : Bool
  notifications : List Notif
  diagnostics : List String
  fileDeletions : List String
  installRequests : List CrxInstallRequest
  loadRequests : List String
  installedLoadRequests : List String
  uninstallRequests : List String
  dataDeletions : List String
  crashReporterIds : List String
deriving DecidableEq, Repr

/-- Empty preference store. -/
def ExtensionPrefs.empty : ExtensionPrefs :=
  { stateMap := [], escalatedMap := [], blacklist := [],
    installedManifests := [], uninstallLog := [] }

/-- State of a freshly constructed service.  The constructor computes
`extensions_enabled_` from the command line and the profile preferences; it is
taken here as a parameter. -/
def initialState (extensionsEnabled : Bool) : ServiceState :=
  { extensions := [], disabledExtensions := [], pendingExtensions := [],
    unloadedExtensionPaths := [], prefs := ExtensionPrefs.empty,
    extensionsEnabled := extensionsEnabled, notifications := [],
    diagnostics := [], fileDeletions := [], installRequests := [],
    loadRequests := [], installedLoadRequests := [], uninstallRequests := [],
    dataDeletions := [], crashReporterIds := [] }

/-- ASCII lowercasing of an identifier, modelling `StringToLowerASCII`. -/
def lowercaseId (s : String) : String :=
  String.mk (s.data.map Char.toLower)

/-- First record with the given (already lowercased) identifier in a list. -/
def findById (l : List Extension) (lid : String) : Option Extension :=
  l.find? (fun e => e.id == lid)

/-- Removal of the first record with the given identifier, modelling the
find-then-erase idiom of the source (`std::find` followed by `erase`). -/
def eraseById (l : List Extension) (lid : String) : List Extension :=
  l.eraseP (fun e => e.id == lid)

/-- `ExtensionsService::GetExtensionByIdInternal`: lowercases the identifier,
then searches the enabled list and, after it, the disabled list, as requested
by the two include flags. -/
def getExtensionByIdInternal (s : ServiceState) (id : String)
    (includeEnabled includeDisabled : Bool) : Option Extension :=
  let lid := lowercaseId id
  match (if includeEnabled then findById s.extensions lid else none) with
  | some e => some e
  | none => if includeDisabled then findById s.disabledExtensions lid else none

/-- `ExtensionsService::GetExtensionById`, declared in the service header
(outside the provided sources) and used by this file: a lookup including the
enabled list and, when requested, the disabled list. -/
def GetExtensionById (s : ServiceState) (id : String) (includeDisabled : Bool) :
    Option Extension :=
  getExtensionByIdInternal s id true includeDisabled

/-- `ExtensionsService::UpdateActiveExtensionsInCrashReporter`: snapshots the
identifiers of the non-theme enabled extensions for the crash reporter. -/
def UpdateActiveExtensionsInCrashReporter (s : ServiceState) : ServiceState :=
  { s with crashReporterIds :=
      (s.extensions.filter (fun e => !e.isTheme)).map (fun e => e.id) }

/-- `ExtensionsService::NotifyExtensionLoaded`: emits EXTENSION_LOADED (the
request-context and database-tracker posts touch no modelled state). -/
def NotifyExtensionLoaded (s : ServiceState) (id : String) : ServiceState :=
  { s with notifications := s.notifications ++ [.extensionLoaded id] }

/-- `ExtensionsService::NotifyExtensionUnloaded`: emits EXTENSION_UNLOADED. -/
def NotifyExtensionUnloaded (s : ServiceState) (id : String) : ServiceState :=
  { s with notifications := s.notifications ++ [.extensionUnloaded id] }

/-- `ExtensionsService::ReportExtensionLoadError`: emits the requested error
notification and reports a composed message to the error reporter (the
diagnostic channel). -/
def ReportExtensionLoadError (s : ServiceState) (extensionPath : String)
    (error : String) (kind : LoadErrorKind) (_beNoisy : Bool) : ServiceState :=
  let notif := match kind with
    | .installError => Notif.extensionInstallError error
    | .overinstallError => Notif.extensionOverinstallError error
  let msg := "Could not load extension from " ++ extensionPath ++ ". " ++ error
  { s with notifications := s.notifications ++ [notif],
           diagnostics := s.diagnostics ++ [msg] }

/-- `ExtensionsService::UnloadExtension`: looks the record up in both lists
(CHECK-failing, hence mutating nothing, if absent), remembers its path in the
unloaded-path map, unregisters URL overrides (an unmodelled collaborator), then
removes it from the disabled list with an EXTENSION_UNLOADED_DISABLED
notification if it was disabled, and otherwise from the enabled list with an
EXTENSION_UNLOADED notification and a crash-reporter refresh.  The source
erases by pointer identity; since the pointer was produced by the
enabled-first lookup, it lies in the disabled list exactly when the identifier
has no enabled record, which is the case split used here. -/
def UnloadExtension (s : ServiceState) (extensionId : String) : ServiceState :=
  let lid := lowercaseId extensionId
  match getExtensionByIdInternal s extensionId true true with
  | none => s
  | some ext =>
    let s1 := { s with unloadedExtensionPaths :=
                  setAssoc s.unloadedExtensionPaths ext.id ext.path }
    match findById s1.extensions lid with
    | some _ =>
      let s2 := { s1 with extensions := eraseById s1.extensions lid }
      UpdateActiveExtensionsInCrashReporter (NotifyExtensionUnloaded s2 ext.id)
    | none =>
      { s1 with disabledExtensions := eraseById s1.disabledExtensions lid,
                notifications := s1.notifications ++
                  [.extensionUnloadedDisabled ext.id] }

/-- `ExtensionsService::EnableExtension`: looks the record up in the disabled
list only; when absent, NOTREACHED reports on the diagnostic channel and the
call is a no-op.  Otherwise it persists the enabled state, moves the record to
the enabled list, re-registers URL overrides (unmodelled collaborator), emits
EXTENSION_LOADED and refreshes the crash-reporter snapshot. -/
def EnableExtension (s : ServiceState) (extensionId : String) : ServiceState :=
  match getExtensionByIdInternal s extensionId false true with
  | none =>
    let msg := "Trying to enable an extension that is not disabled."
    { s with diagnostics := s.diagnostics ++ [msg] }
  | some ext =>
    let s1 := { s with prefs := s.prefs.setExtensionState ext.id .enabled }
    let s2 := { s1 with extensions := s1.extensions ++ [ext],
                        disabledExtensions := eraseById s1.disabledExtensions ext.id }
    UpdateActiveExtensionsInCrashReporter (NotifyExtensionLoaded s2 ext.id)

/-- `ExtensionsService::DisableExtension`: looks the record up in the enabled
list only; when absent the call returns silently (the source comments that the
extension may have been disabled already).  Otherwise it persists the disabled
state, moves the record to the disabled list, unregisters URL overrides
(unmodelled collaborator), emits EXTENSION_UNLOADED and refreshes the
crash-reporter snapshot. -/
def DisableExtension (s : ServiceState) (extensionId : String) : ServiceState :=
  match getExtensionByIdInternal s extensionId true false with
  | none => s
  | some ext =>
    let s1 := { s with prefs := s.prefs.setExtensionState ext.id .disabled }
    let s2 := { s1 with disabledExtensions := s1.disabledExtensions ++ [ext],
                        extensions := eraseById s1.extensions ext.id }
    UpdateActiveExtensionsInCrashReporter (NotifyExtensionUnloaded s2 ext.id)

/-- `ExtensionsService::InstallExtension`: creates a silent CrxInstaller with
privilege increase allowed and starts it on the given bundle path. -/
def InstallExtension (s : ServiceState) (extensionPath : String) : ServiceState :=
  let req : CrxInstallRequest :=
    { crxPath := extensionPath, expectedId := none, installSource := none,
      allowPrivilegeIncrease := true, deleteSource := false,
      silent := true, originalUrl := none }
  { s with installRequests := s.installRequests ++ [req] }

/-- `ExtensionsService::UpdateExtension`: when the identifier is neither
pending nor registered (enabled or disabled), logs a warning, schedules
deletion of the supplied bundle and returns without creating an installer.
Otherwise it creates a CrxInstaller pinned to the identifier, deleting its
source, with the download URL as original URL, silent unless the pending entry
asks for a confirmation UI. -/
def UpdateExtension (s : ServiceState) (id : String) (extensionPath : String)
    (downloadUrl : String) : ServiceState :=
  let pending := lookupAssoc s.pendingExtensions id
  let msg := "Will not update extension " ++ id ++
    " because it is not installed or pending"
  if pending.isNone ∧ (getExtensionByIdInternal s id true true).isNone then
    { s with diagnostics := s.diagnostics ++ [msg],
             fileDeletions := s.fileDeletions ++ [extensionPath] }
  else
    let silent := match pending with
      | none => true
      | some pi => pi.installSilently
    let req : CrxInstallRequest :=
      { crxPath := extensionPath, expectedId := some id, installSource := none,
        allowPrivilegeIncrease := false, deleteSource := true,
        silent := silent, originalUrl := some downloadUrl }
    { s with installRequests := s.installRequests ++ [req] }

/-- `ExtensionsService::AddPendingExtension`: ignores identifiers that are
already installed (enabled or disabled); otherwise records the pending entry. -/
def AddPendingExtension (s : ServiceState) (id : String) (updateUrl : String)
    (version : Version) (isTheme : Bool) (installSilently : Bool) : ServiceState :=
  let info : PendingExtensionInfo :=
    { updateUrl := updateUrl, version := version,
      isTheme := isTheme, installSilently := installSilently }
  if (getExtensionByIdInternal s id true true).isSome then s
  else
    { s with pendingExtensions := setAssoc s.pendingExtensions id info }

/-- `ExtensionsService::LoadExtension`: posts a backend `LoadSingleExtension`
for the path, modelled as appending to the load-request log. -/
def LoadExtension (s : ServiceState) (extensionPath : String) : ServiceState :=
  { s with loadRequests := s.loadRequests ++ [extensionPath] }

/-- Guard of `OnExtensionLoaded` (line 796 of the source): the record is
considered only when extensions are enabled, or it is a theme, an unpacked
(LOAD) extension, or externally installed. -/
def loadGuard (s : ServiceState) (extension : Extension) : Bool :=
  s.extensionsEnabled || extension.isTheme ||
    extension.location == Location.load || extension.location.isExternal

/-- Final placement switch of `OnExtensionLoaded` (lines 838 to 867 of the
source), shared by the upgrade path and the fresh-load path: the record is
placed into the enabled or the disabled list according to the persisted enable
state, with the matching notification, followed by the crash-reporter refresh
that ends the method (the event-router and URL-override collaborators of the
enabled branch are unmodelled). -/
def finishLoad (s : ServiceState) (extension : Extension) : ServiceState :=
  match s.prefs.getExtensionState extension.id with
  | .enabled =>
    UpdateActiveExtensionsInCrashReporter
      (NotifyExtensionLoaded
        { s with extensions := s.extensions ++ [extension] } extension.id)
  | .disabled =>
    UpdateActiveExtensionsInCrashReporter
      { s with disabledExtensions := s.disabledExtensions ++ [extension],
               notifications := s.notifications ++
                 [.extensionUpdateDisabled extension.id] }

/-- Escalation handling of the non-silent upgrade (lines 819 to 824 of the
source): persists the disabled state and the permissions-escalated flag. -/
def upgradePrefs (s : ServiceState) (extension : Extension)
    (allowSilentUpgrade : Bool) : ServiceState :=
  if !allowSilentUpgrade then
    { s with prefs :=
        (s.prefs.setExtensionState extension.id .disabled
          ).setDidExtensionEscalatePermissions extension.id true }
  else s

/-- `ExtensionsService::OnExtensionLoaded`: the upgrade-arbitration algorithm.
The unloaded-path entry of the identifier is erased first.  The record is then
considered only when `loadGuard` admits it; otherwise it is discarded, with
only the final crash-reporter refresh performed.  When a record with the same
identifier is registered: a strictly greater version triggers the upgrade
(silent when the caller allowed a privilege increase or no privilege increase
occurred, and otherwise persisting the disabled state and the escalation flag
after unloading the old record), while an equal or smaller version is reported
as an overinstall load error and discarded, returning early.  The accepted
record is then placed by `finishLoad`. -/
def OnExtensionLoaded (s : ServiceState) (extension : Extension)
    (allowPrivilegeIncrease : Bool) : ServiceState :=
  let s0 := { s with unloadedExtensionPaths :=
                eraseAssoc s.unloadedExtensionPaths extension.id }
  if loadGuard s0 extension then
    match getExtensionByIdInternal s0 extension.id true true with
    | some old =>
      if 0 < Version.compareTo extension.version old.version then
        let allowSilentUpgrade :=
          allowPrivilegeIncrease || !(Extension.IsPrivilegeIncrease old extension)
        let s1 := UnloadExtension s0 old.id
        finishLoad (upgradePrefs s1 extension allowSilentUpgrade) extension
      else
        ReportExtensionLoadError s0 extension.path
          ("Duplicate extension load attempt: " ++ extension.id)
          .overinstallError false
    | none => finishLoad s0 extension
  else
    UpdateActiveExtensionsInCrashReporter s0

/-- `ExtensionsService::OnExtensionInstalled`: when a pending entry for the
identifier exists and its theme flag differs from the installed bundle, logs a
warning, schedules recursive deletion of the bundle directory and discards the
record.  Otherwise it persists the install metadata, emits THEME_INSTALLED or
EXTENSION_INSTALLED, loads the record through `OnExtensionLoaded`, and erases
the pending entry if one was found. -/
def OnExtensionInstalled (s : ServiceState) (extension : Extension)
    (allowPrivilegeIncrease : Bool) : ServiceState :=
  let pending := lookupAssoc s.pendingExtensions extension.id
  let msg := "Not installing pending extension " ++ extension.id ++
    " because of a theme flag mismatch"
  if (match pending with
      | some pi => pi.isTheme != extension.isTheme
      | none => false) then
    { s with diagnostics := s.diagnostics ++ [msg],
             fileDeletions := s.fileDeletions ++ [extension.path] }
  else
    let s1 := { s with prefs := s.prefs.onExtensionInstalled extension }
    let s2 := { s1 with notifications := s1.notifications ++
        [if extension.isTheme then Notif.themeInstalled extension.id
         else Notif.extensionInstalled extension.id] }
    let s3 := OnExtensionLoaded s2 extension allowPrivilegeIncrease
    if pending.isSome then
      { s3 with pendingExtensions := eraseAssoc s3.pendingExtensions extension.id }
    else s3

/-- `ExtensionsService::OnExternalExtensionFound`: when a record with the
identifier is already registered, an equal discovered version returns with no
effect and an older discovered version logs a warning and returns; otherwise
(no record, or a strictly newer discovered version) a silent CrxInstaller is
created with the install source and expected identifier pinned and privilege
increase allowed.  The version string arrives pre-parsed here. -/
def OnExternalExtensionFound (s : ServiceState) (id : String) (version : Version)
    (path : String) (location : Location) : ServiceState :=
  let req : CrxInstallRequest :=
    { crxPath := path, expectedId := some id, installSource := some location,
      allowPrivilegeIncrease := true, deleteSource := false,
      silent := true, originalUrl := none }
  let msg := "Found external version of extension " ++ id ++
    " that is older than current version. Keeping current version."
  match GetExtensionById s id true with
  | some existing =>
    if Version.compareTo existing.version version = -1 then
      { s with installRequests := s.installRequests ++ [req] }
    else if Version.compareTo existing.version version = 0 then s
    else
      { s with diagnostics := s.diagnostics ++ [msg] }
  | none =>
    { s with installRequests := s.installRequests ++ [req] }

/-- `ExtensionsService::ReloadExtension`: when the identifier is loaded
(enabled), remembers its path, detaches any background-page inspector (an
unmodelled collaborator) and unloads it; otherwise reads the remembered path
from the unloaded-path map (`operator[]`, inserting an empty entry when
absent).  Then, if persisted install metadata with a manifest exists, reloads
from it (modelled as an installed-load request); otherwise the remembered path
must be non-empty (a fatal CHECK, modelled as mutating nothing further) and a
backend load of that path is requested. -/
def ReloadExtension (s : ServiceState) (extensionId : String) : ServiceState :=
  let current := GetExtensionById s extensionId false
  let pathAndState : String × ServiceState :=
    match current with
    | some ext => (ext.path, UnloadExtension s extensionId)
    | none =>
      match lookupAssoc s.unloadedExtensionPaths extensionId with
      | some p => (p, s)
      | none => ("", { s with unloadedExtensionPaths :=
                        setAssoc s.unloadedExtensionPaths extensionId "" })
  let path := pathAndState.1
  let s1 := pathAndState.2
  match lookupAssoc s1.prefs.installedManifests extensionId with
  | some _ =>
    { s1 with installedLoadRequests := s1.installedLoadRequests ++ [extensionId] }
  | none =>
    if path = "" then s1
    else { s1 with loadRequests := s1.loadRequests ++ [path] }

/-- `ExtensionsService::UninstallExtension`: resolves the record in either
list (a DCHECK plus null dereference when absent, modelled as mutating
nothing), captures its location, unloads it, persists the uninstall, schedules
deletion of its installed files unless it was an unpacked (LOAD) extension,
and schedules deletion of its site data. -/
def UninstallExtension (s : ServiceState) (extensionId : String)
    (externalUninstall : Bool) : ServiceState :=
  match getExtensionByIdInternal s extensionId true true with
  | none => s
  | some ext =>
    let s1 := UnloadExtension s extensionId
    let s2 := { s1 with prefs :=
                  s1.prefs.onExtensionUninstalled extensionId externalUninstall }
    let s3 :=
      if ext.location != Location.load then
        { s2 with uninstallRequests := s2.uninstallRequests ++ [extensionId] }
      else s2
    { s3 with dataDeletions := s3.dataDeletions ++ [ext.id] }

/-- `ExtensionsService::UpdateExtensionBlacklist`: filters the supplied
identifiers through `Extension::IdIsValid`, persists the resulting set, scans
the enabled list for members of the set, and unloads the collected
identifiers after the scan. -/
def UpdateExtensionBlacklist (s : ServiceState) (blacklist : List String) :
    ServiceState :=
  let blacklistSet := blacklist.filter Extension.IdIsValid
  let s1 := { s with prefs := s.prefs.updateBlacklist blacklistSet }
  let toBeRemoved :=
    (s1.extensions.filter (fun e => blacklistSet.contains e.id)).map (fun e => e.id)
  toBeRemoved.foldl UnloadExtension s1

/-- Modelled from the spec: the Installation Backend
(`ExtensionsServiceBackend::LoadSingleExtension`) loads the bundle at the
requested path off the control context, stamps the record with the LOAD
location, and reports it back through `OnExtensionInstalled` with privilege
increase allowed.  This function models the successful completion delivering
the record parsed from disk. -/
def LoadSingleExtensionSucceeded (s : ServiceState) (ext : Extension) : ServiceState :=
  OnExtensionInstalled s { ext with location := Location.load } true

/-- Identifiers of the records in the enabled list. -/
def enabledIds (s : ServiceState) : List String :=
  s.extensions.map Extension.id

/-- Identifiers of the records in the disabled list. -/
def disabledIds (s : ServiceState) : List String :=
  s.disabledExtensions.map Extension.id

/-- Identifiers of every registered record, enabled list first. -/
def registryIds (s : ServiceState) : List String :=
  enabledIds s ++ disabledIds s

/-- Registry uniqueness: no identifier occurs twice across the enabled and
disabled lists.  This implies the disjointness of the two lists. -/
def RegistryNodup (s : ServiceState) : Prop :=
  (registryIds s).Nodup

/-- Record with the given identifier registered in either list, if any
(enabled list searched first), together with how often the identifier occurs
across both lists. -/
def registryCount (s : ServiceState) (lid : String) : Nat :=
  (registryIds s).count lid

/-- Every public operation of the service, as data, for quantifying over the
operations in invariant statements. -/
inductive Op where
  | install (path : String)
  | update (id : String) (path : String) (downloadUrl : String)
  | addPending (id : String) (updateUrl : String) (version : Version)
      (isTheme : Bool) (installSilently : Bool)
  | reload (id : String)
  | uninstall (id : String) (externalUninstall : Bool)
  | enable (id : String)
  | disable (id : String)
  | unload (id : String)
  | blacklistUpdate (ids : List String)
  | loaded (ext : Extension) (allowPrivilegeIncrease : Bool)
  | installed (ext : Extension) (allowPrivilegeIncrease : Bool)
  | externalFound (id : String) (version : Version) (path : String) (loc : Location)
  | singleLoadDone (ext : Extension)

/-- Applies an operation to the service state. -/
def Op.apply : Op → ServiceState → ServiceState
  | .install path, s => InstallExtension s path
  | .update id path url, s => UpdateExtension s id path url
  | .addPending id url v t sl, s => AddPendingExtension s id url v t sl
  | .reload id, s => ReloadExtension s id
  | .uninstall id ex, s => UninstallExtension s id ex
  | .enable id, s => EnableExtension s id
  | .disable id, s => DisableExtension s id
  | .unload id, s => UnloadExtension s id
  | .blacklistUpdate ids, s => UpdateExtensionBlacklist s ids
  | .loaded ext allow, s => OnExtensionLoaded s ext allow
  | .installed ext allow, s => OnExtensionInstalled s ext allow
  | .externalFound id v path loc, s => OnExternalExtensionFound s id v path loc
  | .singleLoadDone ext, s => LoadSingleExtensionSucceeded s ext

/-- Well-formedness of the record an operation carries.  Per the spec data
model, an extension identity is a stable lowercase identifier; records handed
to the load and install callbacks are produced by the installer and manifest
parser, which are outside the provided sources. -/
def Op.WF : Op → Prop
  | .loaded ext _ => lowercaseId ext.id = ext.id
  | .installed ext _ => lowercaseId ext.id = ext.id
  | .singleLoadDone ext => lowercaseId ext.id = ext.id
  | _ => True

/-- States reachable from a freshly constructed service by the public
operations (with well-formed extension records). -/
inductive Reachable : ServiceState → Prop where
  | init (b : Bool) : Reachable (initialState b)
  | step (op : Op) (s : ServiceState) : Reachable s → op.WF → Reachable (op.apply s)

/-- Concrete theme record, version 1.0, used for witnesses. -/
def fixTheme1 : Extension :=
  { id := "aaa", version := [1, 0], location := .internal, isTheme := true,
    path := "/fix/theme1", apiPermissions := [] }

/-- Concrete theme record, version 2.0, used for witnesses. -/
def fixTheme2 : Extension :=
  { id := "aaa", version := [2, 0], location := .internal, isTheme := true,
    path := "/fix/theme2", apiPermissions := [] }

/-- Concrete plain record, version 1.0, one permission. -/
def fixPlain1 : Extension :=
  { id := "aaa", version := [1, 0], location := .internal, isTheme := false,
    path := "/fix/plain1", apiPermissions := ["tabs"] }

/-- Concrete plain record, version 2.0, same permission set as `fixPlain1`. -/
def fixPlain2 : Extension :=
  { id := "aaa", version := [2, 0], location := .internal, isTheme := false,
    path := "/fix/plain2", apiPermissions := ["tabs"] }

/-- Concrete plain record, version 2.0, with a permission `fixPlain1` lacks. -/
def fixEscal2 : Extension :=
  { id := "aaa", version := [2, 0], location := .internal, isTheme := false,
    path := "/fix/escal2", apiPermissions := ["tabs", "bookmarks"] }

/-- Concrete unpacked (LOAD-location) record. -/
def fixLoad1 : Extension :=
  { id := "ccc", version := [1, 0], location := .load, isTheme := false,
    path := "/fix/load1", apiPermissions := [] }

/-- Concrete record for blacklist examples. -/
def fixBad : Extension :=
  { id := "bbb", version := [1, 0], location := .internal, isTheme := false,
    path := "/fix/bad", apiPermissions := [] }

/-- Service with extensions disabled holding the version 1.0 theme. -/
def fixOffTheme1 : ServiceState := OnExtensionLoaded (initialState false) fixTheme1 true

/-- Service with extensions disabled holding the version 2.0 theme. -/
def fixOffTheme2 : ServiceState := OnExtensionLoaded (initialState false) fixTheme2 true

/-- Service with extensions enabled holding `fixPlain1` in the enabled list. -/
def fixOn1 : ServiceState := OnExtensionLoaded (initialState true) fixPlain1 true

/-- Service holding `fixBad` in the disabled list. -/
def fixDisabledBad : ServiceState :=
  DisableExtension (OnExtensionLoaded (initialState true) fixBad true) "bbb"

/-- Service holding the unpacked record `fixLoad1` in the enabled list. -/
def fixOnLoad1 : ServiceState := OnExtensionLoaded (initialState true) fixLoad1 true

/-- Concrete packaged-component record. -/
def fixComp : Extension :=
  { id := "ddd", version := [1, 0], location := .component, isTheme := false,
    path := "/fix/comp", apiPermissions := [] }

/-- Service holding the component record `fixComp` in the enabled list. -/
def fixOnComp : ServiceState := OnExtensionLoaded (initialState true) fixComp true

/-- Service with a pending entry expecting a theme for identifier aaa. -/
def fixPendTheme : ServiceState :=
  AddPendingExtension (initialState true) "aaa" "http://u" [1, 0] true false

/-- The pending entry stored by `fixPendTheme`. -/
def fixPendThemeInfo : PendingExtensionInfo :=
  { updateUrl := "http://u", version := [1, 0], isTheme := true,
    installSilently := false }

end ExtSvc

namespace ExtSvc

theorem find_eraseP_perm {α : Type} (p : α → Bool) (l : List α) (e : α)
    (h : l.find? p = some e) : l.Perm (e :: l.eraseP p) := by
  induction l with
  | nil => simp [List.find?] at h
  | cons x t ih =>
    by_cases hp : p x
    · rw [List.find?_cons_of_pos _ hp] at h
      injection h with h
      subst h
      rw [List.eraseP_cons_of_pos hp]
    · rw [List.find?_cons_of_neg _ hp] at h
      rw [List.eraseP_cons_of_neg hp]
      exact ((ih h).cons x).trans (List.Perm.swap e x _)

theorem findById_perm (l : List Extension) (lid : String) (e : Extension)
    (h : findById l lid = some e) : l.Perm (e :: eraseById l lid) :=
  find_eraseP_perm _ l e h

theorem findById_id (l : List Extension) (lid : String) (e : Extension)
    (h : findById l lid = some e) : e.id = lid := by
  have := List.find?_some h
  simpa using this

theorem findById_mem (l : List Extension) (lid : String) (e : Extension)
    (h : findById l lid = some e) : e ∈ l :=
  List.mem_of_find?_eq_some h

theorem findById_none_not_mem (l : List Extension) (lid : String)
    (h : findById l lid = none) : lid ∉ l.map Extension.id := by
  intro hm
  rw [List.mem_map] at hm
  obtain ⟨e, he, hid⟩ := hm
  rw [findById, List.find?_eq_none] at h
  exact h e he (by simp [hid])

theorem find?_append_none {α : Type} (p : α → Bool) (l₁ l₂ : List α)
    (h : l₁.find? p = none) : (l₁ ++ l₂).find? p = l₂.find? p := by
  induction l₁ with
  | nil => simp
  | cons x t ih =>
    by_cases hp : p x
    · rw [List.find?_cons_of_pos _ hp] at h
      exact absurd h (by simp)
    · rw [List.find?_cons_of_neg _ hp] at h
      rw [List.cons_append, List.find?_cons_of_neg _ hp]
      exact ih h

theorem find?_filter_of_imp {α : Type} (p q : α → Bool) (l : List α)
    (h : ∀ x, p x = true → q x = true) : (l.filter q).find? p = l.find? p := by
  induction l with
  | nil => simp
  | cons x t ih =>
    by_cases hq : q x
    · rw [List.filter_cons_of_pos hq]
      by_cases hp : p x
      · rw [List.find?_cons_of_pos _ hp, List.find?_cons_of_pos _ hp]
      · rw [List.find?_cons_of_neg _ hp, List.find?_cons_of_neg _ hp]
        exact ih
    · rw [List.filter_cons_of_neg hq]
      have hp : ¬ p x = true := fun hc => hq (h x hc)
      rw [List.find?_cons_of_neg _ hp]
      exact ih

theorem eraseAssoc_find?_self_none {α : Type} (l : List (String × α)) (k : String) :
    (eraseAssoc l k).find? (fun p => p.1 == k) = none := by
  rw [eraseAssoc, List.find?_eq_none]
  intro x hx
  rw [List.mem_filter] at hx
  have h2 := hx.2
  rw [bne_iff_ne] at h2
  simpa using h2

theorem lookupAssoc_eraseAssoc_self {α : Type} (l : List (String × α)) (k : String) :
    lookupAssoc (eraseAssoc l k) k = none := by
  rw [lookupAssoc, eraseAssoc_find?_self_none]
  rfl

theorem lookupAssoc_eraseAssoc_ne {α : Type} (l : List (String × α)) (k k' : String)
    (h : k' ≠ k) : lookupAssoc (eraseAssoc l k) k' = lookupAssoc l k' := by
  rw [lookupAssoc, eraseAssoc, lookupAssoc, find?_filter_of_imp]
  intro x hx
  have hx1 : x.1 = k' := by simpa using hx
  rw [bne_iff_ne, hx1]
  exact h

theorem lookupAssoc_setAssoc_self {α : Type} (l : List (String × α)) (k : String)
    (v : α) : lookupAssoc (setAssoc l k v) k = some v := by
  rw [setAssoc, lookupAssoc, List.find?_append, eraseAssoc_find?_self_none]
  simp [List.find?]

theorem lookupAssoc_setAssoc_ne {α : Type} (l : List (String × α)) (k k' : String)
    (v : α) (h : k' ≠ k) : lookupAssoc (setAssoc l k v) k' = lookupAssoc l k' := by
  have h1 : (([(k, v)] : List (String × α)).find? (fun p => p.1 == k')) = none := by
    have hkk : (k == k') = false := beq_eq_false_iff_ne.mpr (Ne.symm h)
    simp [List.find?, hkk]
  have h2 : lookupAssoc (setAssoc l k v) k' = lookupAssoc (eraseAssoc l k) k' := by
    rw [setAssoc, lookupAssoc, List.find?_append, h1]
    cases hf : (eraseAssoc l k).find? (fun p => p.1 == k') with
    | none => simp [lookupAssoc, hf]
    | some x => simp [lookupAssoc, hf]
  rw [h2]
  exact lookupAssoc_eraseAssoc_ne l k k' h

theorem getInternal_none (s : ServiceState) (id : String)
    (h : getExtensionByIdInternal s id true true = none) :
    findById s.extensions (lowercaseId id) = none ∧
    findById s.disabledExtensions (lowercaseId id) = none := by
  simp only [getExtensionByIdInternal, if_true] at h
  cases hf : findById s.extensions (lowercaseId id) with
  | some e => rw [hf] at h; exact absurd h (by simp)
  | none => rw [hf] at h; exact ⟨rfl, h⟩

theorem getInternal_some (s : ServiceState) (id : String) (e : Extension)
    (h : getExtensionByIdInternal s id true true = some e) :
    findById s.extensions (lowercaseId id) = some e ∨
    (findById s.extensions (lowercaseId id) = none ∧
     findById s.disabledExtensions (lowercaseId id) = some e) := by
  simp only [getExtensionByIdInternal, if_true] at h
  cases hf : findById s.extensions (lowercaseId id) with
  | some x =>
    rw [hf] at h
    simp at h
    subst h
    exact Or.inl rfl
  | none => rw [hf] at h; exact Or.inr ⟨rfl, h⟩

theorem getInternal_eq_enabled (s : ServiceState) (id : String) (e : Extension)
    (hf : findById s.extensions (lowercaseId id) = some e) :
    getExtensionByIdInternal s id true true = some e := by
  simp only [getExtensionByIdInternal, if_true, hf]

theorem getInternal_eq_disabled (s : ServiceState) (id : String) (e : Extension)
    (hfe : findById s.extensions (lowercaseId id) = none)
    (hfd : findById s.disabledExtensions (lowercaseId id) = some e) :
    getExtensionByIdInternal s id true true = some e := by
  simp only [getExtensionByIdInternal, if_true, hfe, hfd]

theorem getInternal_eq_none (s : ServiceState) (id : String)
    (hfe : findById s.extensions (lowercaseId id) = none)
    (hfd : findById s.disabledExtensions (lowercaseId id) = none) :
    getExtensionByIdInternal s id true true = none := by
  simp only [getExtensionByIdInternal, if_true, hfe, hfd]

theorem unload_none_eq (s : ServiceState) (id : String)
    (h : getExtensionByIdInternal s id true true = none) :
    UnloadExtension s id = s := by
  simp only [UnloadExtension, h]

theorem unload_enabled_eq (s : ServiceState) (id : String) (e : Extension)
    (hf : findById s.extensions (lowercaseId id) = some e) :
    UnloadExtension s id =
      { s with
          unloadedExtensionPaths := setAssoc s.unloadedExtensionPaths e.id e.path,
          extensions := eraseById s.extensions (lowercaseId id),
          notifications := s.notifications ++ [.extensionUnloaded e.id],
          crashReporterIds :=
            ((eraseById s.extensions (lowercaseId id)).filter
              (fun x => !x.isTheme)).map (fun x => x.id) } := by
  simp only [UnloadExtension, getInternal_eq_enabled s id e hf, hf,
    NotifyExtensionUnloaded, UpdateActiveExtensionsInCrashReporter]

theorem unload_disabled_eq (s : ServiceState) (id : String) (e : Extension)
    (hfe : findById s.extensions (lowercaseId id) = none)
    (hfd : findById s.disabledExtensions (lowercaseId id) = some e) :
    UnloadExtension s id =
      { s with
          unloadedExtensionPaths := setAssoc s.unloadedExtensionPaths e.id e.path,
          disabledExtensions := eraseById s.disabledExtensions (lowercaseId id),
          notifications := s.notifications ++ [.extensionUnloadedDisabled e.id] } := by
  simp only [UnloadExtension, getInternal_eq_disabled s id e hfe hfd, hfe]

theorem registryIds_unload_perm (s : ServiceState) (id : String) (e : Extension)
    (h : getExtensionByIdInternal s id true true = some e) :
    (registryIds s).Perm (lowercaseId id :: registryIds (UnloadExtension s id)) := by
  rcases getInternal_some s id e h with hf | ⟨hfe, hfd⟩
  · rw [unload_enabled_eq s id e hf]
    have hperm := (findById_perm _ _ _ hf).map Extension.id
    have hid := findById_id _ _ _ hf
    rw [List.map_cons, hid] at hperm
    exact hperm.append_right _
  · rw [unload_disabled_eq s id e hfe hfd]
    have hperm := (findById_perm _ _ _ hfd).map Extension.id
    have hid := findById_id _ _ _ hfd
    rw [List.map_cons, hid] at hperm
    exact (hperm.append_left (s.extensions.map Extension.id)).trans List.perm_middle

theorem registryNodup_unload (s : ServiceState) (id : String)
    (h : RegistryNodup s) : RegistryNodup (UnloadExtension s id) := by
  cases hi : getExtensionByIdInternal s id true true with
  | none => rw [unload_none_eq s id hi]; exact h
  | some e =>
    have hperm := registryIds_unload_perm s id e hi
    exact (List.nodup_cons.mp (hperm.nodup h)).2

theorem unload_removes (s : ServiceState) (id : String) (e : Extension)
    (hi : getExtensionByIdInternal s id true true = some e)
    (h : RegistryNodup s) :
    lowercaseId id ∉ registryIds (UnloadExtension s id) := by
  have hperm := registryIds_unload_perm s id e hi
  exact (List.nodup_cons.mp (hperm.nodup h)).1

theorem finishLoad_enabled_eq (s : ServiceState) (e : Extension)
    (hstate : s.prefs.getExtensionState e.id = .enabled) :
    finishLoad s e =
      { s with extensions := s.extensions ++ [e],
               notifications := s.notifications ++ [.extensionLoaded e.id],
               crashReporterIds :=
                 ((s.extensions ++ [e]).filter (fun x => !x.isTheme)).map
                   (fun x => x.id) } := by
  simp only [finishLoad, hstate, NotifyExtensionLoaded,
    UpdateActiveExtensionsInCrashReporter]

theorem finishLoad_disabled_eq (s : ServiceState) (e : Extension)
    (hstate : s.prefs.getExtensionState e.id = .disabled) :
    finishLoad s e =
      { s with disabledExtensions := s.disabledExtensions ++ [e],
               notifications := s.notifications ++ [.extensionUpdateDisabled e.id],
               crashReporterIds :=
                 (s.extensions.filter (fun x => !x.isTheme)).map (fun x => x.id) } := by
  simp only [finishLoad, hstate, UpdateActiveExtensionsInCrashReporter]

theorem registryIds_finishLoad_perm (s : ServiceState) (e : Extension) :
    (registryIds (finishLoad s e)).Perm (e.id :: registryIds s) := by
  cases hstate : s.prefs.getExtensionState e.id with
  | enabled =>
    rw [finishLoad_enabled_eq s e hstate]
    have : registryIds
        { s with extensions := s.extensions ++ [e],
                 notifications := s.notifications ++ [.extensionLoaded e.id],
                 crashReporterIds :=
                   ((s.extensions ++ [e]).filter (fun x => !x.isTheme)).map
                     (fun x => x.id) } =
        (s.extensions.map Extension.id ++ [e.id]) ++
          s.disabledExtensions.map Extension.id := by
      simp [registryIds, enabledIds, disabledIds]
    rw [this, List.append_assoc]
    exact List.perm_middle
  | disabled =>
    rw [finishLoad_disabled_eq s e hstate]
    have : registryIds
        { s with disabledExtensions := s.disabledExtensions ++ [e],
                 notifications := s.notifications ++ [.extensionUpdateDisabled e.id],
                 crashReporterIds :=
                   (s.extensions.filter (fun x => !x.isTheme)).map (fun x => x.id) } =
        s.extensions.map Extension.id ++
          (s.disabledExtensions.map Extension.id ++ [e.id]) := by
      simp [registryIds, enabledIds, disabledIds]
    rw [this, ← List.append_assoc]
    have h2 : ((s.extensions.map Extension.id ++
        s.disabledExtensions.map Extension.id) ++ [e.id]).Perm
        ([e.id] ++ (s.extensions.map Extension.id ++
          s.disabledExtensions.map Extension.id)) := List.perm_append_comm
    exact h2

theorem registryNodup_finishLoad (s : ServiceState) (e : Extension)
    (h : RegistryNodup s) (hmem : e.id ∉ registryIds s) :
    RegistryNodup (finishLoad s e) := by
  have hperm := registryIds_finishLoad_perm s e
  exact hperm.symm.nodup (List.nodup_cons.mpr ⟨hmem, h⟩)

theorem getInternal_some_id (s : ServiceState) (id : String) (e : Extension)
    (h : getExtensionByIdInternal s id true true = some e) :
    e.id = lowercaseId id := by
  rcases getInternal_some s id e h with hf | ⟨_, hfd⟩
  · exact findById_id _ _ _ hf
  · exact findById_id _ _ _ hfd

theorem getInternal_disabled_only (s : ServiceState) (id : String) :
    getExtensionByIdInternal s id false true =
      findById s.disabledExtensions (lowercaseId id) := by
  simp [getExtensionByIdInternal]

theorem getInternal_enabled_only (s : ServiceState) (id : String) :
    getExtensionByIdInternal s id true false =
      findById s.extensions (lowercaseId id) := by
  cases hf : findById s.extensions (lowercaseId id) with
  | none => simp [getExtensionByIdInternal, hf]
  | some x => simp [getExtensionByIdInternal, hf]

theorem enable_none_eq (s : ServiceState) (id : String)
    (hi : getExtensionByIdInternal s id false true = none) :
    EnableExtension s id =
      { s with diagnostics := s.diagnostics ++
          ["Trying to enable an extension that is not disabled."] } := by
  simp only [EnableExtension, hi]

theorem enable_some_eq (s : ServiceState) (id : String) (e : Extension)
    (hi : getExtensionByIdInternal s id false true = some e) :
    EnableExtension s id =
      { s with prefs := s.prefs.setExtensionState e.id .enabled,
               extensions := s.extensions ++ [e],
               disabledExtensions := eraseById s.disabledExtensions e.id,
               notifications := s.notifications ++ [.extensionLoaded e.id],
               crashReporterIds :=
                 ((s.extensions ++ [e]).filter (fun x => !x.isTheme)).map
                   (fun x => x.id) } := by
  simp only [EnableExtension, hi, NotifyExtensionLoaded,
    UpdateActiveExtensionsInCrashReporter]

theorem disable_none_eq (s : ServiceState) (id : String)
    (hi : getExtensionByIdInternal s id true false = none) :
    DisableExtension s id = s := by
  simp only [DisableExtension, hi]

theorem disable_some_eq (s : ServiceState) (id : String) (e : Extension)
    (hi : getExtensionByIdInternal s id true false = some e) :
    DisableExtension s id =
      { s with prefs := s.prefs.setExtensionState e.id .disabled,
               disabledExtensions := s.disabledExtensions ++ [e],
               extensions := eraseById s.extensions e.id,
               notifications := s.notifications ++ [.extensionUnloaded e.id],
               crashReporterIds :=
                 ((eraseById s.extensions e.id).filter (fun x => !x.isTheme)).map
                   (fun x => x.id) } := by
  simp only [DisableExtension, hi, NotifyExtensionUnloaded,
    UpdateActiveExtensionsInCrashReporter]

theorem registryNodup_enable (s : ServiceState) (id : String)
    (h : RegistryNodup s) : RegistryNodup (EnableExtension s id) := by
  cases hi : getExtensionByIdInternal s id false true with
  | none => rw [enable_none_eq s id hi]; exact h
  | some e =>
    rw [enable_some_eq s id e hi]
    have hfd : findById s.disabledExtensions (lowercaseId id) = some e := by
      rw [← getInternal_disabled_only]; exact hi
    have hid := findById_id _ _ _ hfd
    have hperm := (findById_perm _ _ _ hfd).map Extension.id
    rw [List.map_cons] at hperm
    rw [← hid] at hperm
    have hreg : registryIds
        { s with prefs := s.prefs.setExtensionState e.id .enabled,
                 extensions := s.extensions ++ [e],
                 disabledExtensions := eraseById s.disabledExtensions e.id,
                 notifications := s.notifications ++ [.extensionLoaded e.id],
                 crashReporterIds :=
                   ((s.extensions ++ [e]).filter (fun x => !x.isTheme)).map
                     (fun x => x.id) } =
        (s.extensions.map Extension.id ++ [e.id]) ++
          (eraseById s.disabledExtensions e.id).map Extension.id := by
      simp [registryIds, enabledIds, disabledIds]
    rw [RegistryNodup, hreg, List.append_assoc]
    exact (hperm.append_left _).nodup h

theorem registryNodup_disable (s : ServiceState) (id : String)
    (h : RegistryNodup s) : RegistryNodup (DisableExtension s id) := by
  cases hi : getExtensionByIdInternal s id true false with
  | none => rw [disable_none_eq s id hi]; exact h
  | some e =>
    rw [disable_some_eq s id e hi]
    have hfe : findById s.extensions (lowercaseId id) = some e := by
      rw [← getInternal_enabled_only]; exact hi
    have hid := findById_id _ _ _ hfe
    have hperm := (findById_perm _ _ _ hfe).map Extension.id
    rw [List.map_cons] at hperm
    rw [← hid] at hperm
    have hreg : registryIds
        { s with prefs := s.prefs.setExtensionState e.id .disabled,
                 disabledExtensions := s.disabledExtensions ++ [e],
                 extensions := eraseById s.extensions e.id,
                 notifications := s.notifications ++ [.extensionUnloaded e.id],
                 crashReporterIds :=
                   ((eraseById s.extensions e.id).filter (fun x => !x.isTheme)).map
                     (fun x => x.id) } =
        (eraseById s.extensions e.id).map Extension.id ++
          (s.disabledExtensions.map Extension.id ++ [e.id]) := by
      simp [registryIds, enabledIds, disabledIds]
    rw [RegistryNodup, hreg]
    have h1 : (registryIds s).Perm
        (e.id :: ((eraseById s.extensions e.id).map Extension.id ++
          s.disabledExtensions.map Extension.id)) :=
      hperm.append_right _
    have h2 : ((eraseById s.extensions e.id).map Extension.id ++
        (s.disabledExtensions.map Extension.id ++ [e.id])).Perm
        (e.id :: ((eraseById s.extensions e.id).map Extension.id ++
          s.disabledExtensions.map Extension.id)) := by
      have h3 : (s.disabledExtensions.map Extension.id ++ [e.id]).Perm
          (e.id :: s.disabledExtensions.map Extension.id) :=
        List.perm_append_comm
      exact (h3.append_left _).trans List.perm_middle
    exact h2.symm.nodup (h1.nodup h)

theorem loaded_noguard_eq (s : ServiceState) (e : Extension) (a : Bool)
    (hg : loadGuard s e = false) :
    OnExtensionLoaded s e a =
      { s with unloadedExtensionPaths := eraseAssoc s.unloadedExtensionPaths e.id,
               crashReporterIds :=
                 (s.extensions.filter (fun x => !x.isTheme)).map (fun x => x.id) } := by
  have hg0 : loadGuard
      { s with unloadedExtensionPaths := eraseAssoc s.unloadedExtensionPaths e.id }
      e = false := hg
  simp only [OnExtensionLoaded, hg0, Bool.false_eq_true, if_false,
    UpdateActiveExtensionsInCrashReporter]

theorem loaded_fresh_eq (s : ServiceState) (e : Extension) (a : Bool)
    (hg : loadGuard s e = true)
    (hnone : getExtensionByIdInternal s e.id true true = none) :
    OnExtensionLoaded s e a =
      finishLoad
        { s with unloadedExtensionPaths := eraseAssoc s.unloadedExtensionPaths e.id }
        e := by
  have hg0 : loadGuard
      { s with unloadedExtensionPaths := eraseAssoc s.unloadedExtensionPaths e.id }
      e = true := hg
  have hn0 : getExtensionByIdInternal
      { s with unloadedExtensionPaths := eraseAssoc s.unloadedExtensionPaths e.id }
      e.id true true = none := hnone
  simp only [OnExtensionLoaded, hg0, hn0, if_true]

theorem loaded_stale_eq (s : ServiceState) (e : Extension) (a : Bool)
    (old : Extension) (hg : loadGuard s e = true)
    (hsome : getExtensionByIdInternal s e.id true true = some old)
    (hv : ¬ 0 < Version.compareTo e.version old.version) :
    OnExtensionLoaded s e a =
      { s with unloadedExtensionPaths := eraseAssoc s.unloadedExtensionPaths e.id,
               notifications := s.notifications ++
                 [.extensionOverinstallError
                   ("Duplicate extension load attempt: " ++ e.id)],
               diagnostics := s.diagnostics ++
                 ["Could not load extension from " ++ e.path ++ ". " ++
                   ("Duplicate extension load attempt: " ++ e.id)] } := by
  have hg0 : loadGuard
      { s with unloadedExtensionPaths := eraseAssoc s.unloadedExtensionPaths e.id }
      e = true := hg
  have hs0 : getExtensionByIdInternal
      { s with unloadedExtensionPaths := eraseAssoc s.unloadedExtensionPaths e.id }
      e.id true true = some old := hsome
  simp only [OnExtensionLoaded, hg0, hs0, hv, if_true, if_false,
    ReportExtensionLoadError]

theorem loaded_upgrade_eq (s : ServiceState) (e : Extension) (a : Bool)
    (old : Extension) (hg : loadGuard s e = true)
    (hsome : getExtensionByIdInternal s e.id true true = some old)
    (hv : 0 < Version.compareTo e.version old.version) :
    OnExtensionLoaded s e a =
      finishLoad
        (upgradePrefs
          (UnloadExtension
            { s with unloadedExtensionPaths :=
                eraseAssoc s.unloadedExtensionPaths e.id }
            old.id)
          e (a || !(Extension.IsPrivilegeIncrease old e)))
        e := by
  have hg0 : loadGuard
      { s with unloadedExtensionPaths := eraseAssoc s.unloadedExtensionPaths e.id }
      e = true := hg
  have hs0 : getExtensionByIdInternal
      { s with unloadedExtensionPaths := eraseAssoc s.unloadedExtensionPaths e.id }
      e.id true true = some old := hsome
  simp only [OnExtensionLoaded, hg0, hs0, hv, if_true]

theorem upgradePrefs_registry (s : ServiceState) (e : Extension) (b : Bool) :
    registryIds (upgradePrefs s e b) = registryIds s := by
  unfold upgradePrefs
  split
  · rfl
  · rfl

theorem registryNodup_loaded (s : ServiceState) (e : Extension) (a : Bool)
    (hwf : lowercaseId e.id = e.id) (h : RegistryNodup s) :
    RegistryNodup (OnExtensionLoaded s e a) := by
  by_cases hg : loadGuard s e = true
  · cases hi : getExtensionByIdInternal s e.id true true with
    | none =>
      rw [loaded_fresh_eq s e a hg hi]
      obtain ⟨hfe, hfd⟩ := getInternal_none s e.id hi
      rw [hwf] at hfe hfd
      apply registryNodup_finishLoad
      · exact h
      · intro hmem
        rcases List.mem_append.mp hmem with hm | hm
        · exact findById_none_not_mem _ _ hfe hm
        · exact findById_none_not_mem _ _ hfd hm
    | some old =>
      by_cases hv : 0 < Version.compareTo e.version old.version
      · rw [loaded_upgrade_eq s e a old hg hi hv]
        have holdid : old.id = e.id := (getInternal_some_id s e.id old hi).trans hwf
        have h0 : RegistryNodup
            { s with unloadedExtensionPaths :=
                eraseAssoc s.unloadedExtensionPaths e.id } := h
        have h1 : getExtensionByIdInternal
            { s with unloadedExtensionPaths :=
                eraseAssoc s.unloadedExtensionPaths e.id }
            old.id true true = some old := by
          rw [holdid]; exact hi
        have hnodup1 := registryNodup_unload _ old.id h0
        have hrem := unload_removes _ old.id old h1 h0
        have hl : lowercaseId old.id = e.id := by rw [holdid, hwf]
        rw [hl] at hrem
        apply registryNodup_finishLoad
        · rw [RegistryNodup, upgradePrefs_registry]
          exact hnodup1
        · rw [upgradePrefs_registry]
          exact hrem
      · rw [loaded_stale_eq s e a old hg hi hv]
        exact h
  · have hg' : loadGuard s e = false := by
      cases hb : loadGuard s e
      · rfl
      · exact absurd hb hg
    rw [loaded_noguard_eq s e a hg']
    exact h

theorem registryNodup_install (s : ServiceState) (p : String)
    (h : RegistryNodup s) : RegistryNodup (InstallExtension s p) := h

theorem registryNodup_update (s : ServiceState) (id p u : String)
    (h : RegistryNodup s) : RegistryNodup (UpdateExtension s id p u) := by
  simp only [UpdateExtension]
  split
  · exact h
  · exact h

theorem registryNodup_addPending (s : ServiceState) (id u : String) (v : Version)
    (t sl : Bool) (h : RegistryNodup s) :
    RegistryNodup (AddPendingExtension s id u v t sl) := by
  simp only [AddPendingExtension]
  split
  · exact h
  · exact h

theorem registryNodup_external (s : ServiceState) (id : String) (v : Version)
    (p : String) (loc : Location) (h : RegistryNodup s) :
    RegistryNodup (OnExternalExtensionFound s id v p loc) := by
  simp only [OnExternalExtensionFound]
  split
  · split
    · exact h
    · split
      · exact h
      · exact h
  · exact h

theorem registryNodup_reload (s : ServiceState) (id : String)
    (h : RegistryNodup s) : RegistryNodup (ReloadExtension s id) := by
  simp only [ReloadExtension]
  cases hc : GetExtensionById s id false with
  | some ext =>
    dsimp only
    have h1 := registryNodup_unload s id h
    cases hm : lookupAssoc (UnloadExtension s id).prefs.installedManifests id with
    | some x => simp only [hm]; exact h1
    | none => simp only [hm]; split <;> exact h1
  | none =>
    dsimp only
    cases hl : lookupAssoc s.unloadedExtensionPaths id with
    | some p =>
      dsimp only
      cases hm : lookupAssoc s.prefs.installedManifests id with
      | some x => simp only [hm]; exact h
      | none => simp only [hm]; split <;> exact h
    | none =>
      dsimp only
      cases hm : lookupAssoc s.prefs.installedManifests id with
      | some x => simp only [hm]; exact h
      | none => simp only [hm]; split <;> exact h

theorem registryNodup_uninstall (s : ServiceState) (id : String) (ex : Bool)
    (h : RegistryNodup s) : RegistryNodup (UninstallExtension s id ex) := by
  simp only [UninstallExtension]
  cases hc : getExtensionByIdInternal s id true true with
  | none => exact h
  | some e =>
    dsimp only
    have h1 := registryNodup_unload s id h
    split <;> exact h1

theorem registryNodup_foldl_unload (ids : List String) (s : ServiceState)
    (h : RegistryNodup s) : RegistryNodup (ids.foldl UnloadExtension s) := by
  induction ids generalizing s with
  | nil => exact h
  | cons x t ih => exact ih _ (registryNodup_unload s x h)

theorem registryNodup_blacklist (s : ServiceState) (bl : List String)
    (h : RegistryNodup s) : RegistryNodup (UpdateExtensionBlacklist s bl) := by
  simp only [UpdateExtensionBlacklist]
  exact registryNodup_foldl_unload _ _ h

theorem registryNodup_installed (s : ServiceState) (e : Extension) (a : Bool)
    (hwf : lowercaseId e.id = e.id) (h : RegistryNodup s) :
    RegistryNodup (OnExtensionInstalled s e a) := by
  simp only [OnExtensionInstalled]
  split
  · exact h
  · have h3 := registryNodup_loaded
      { s with prefs := s.prefs.onExtensionInstalled e,
               notifications := s.notifications ++
                 [if e.isTheme then Notif.themeInstalled e.id
                  else Notif.extensionInstalled e.id] } e a hwf h
    split
    · exact h3
    · exact h3

theorem registryNodup_singleLoadDone (s : ServiceState) (e : Extension)
    (hwf : lowercaseId e.id = e.id) (h : RegistryNodup s) :
    RegistryNodup (LoadSingleExtensionSucceeded s e) :=
  registryNodup_installed s { e with location := Location.load } true hwf h

theorem registryNodup_step (op : Op) (s : ServiceState) (hwf : op.WF)
    (h : RegistryNodup s) : RegistryNodup (op.apply s) := by
  cases op with
  | install p => exact registryNodup_install s p h
  | update id p u => exact registryNodup_update s id p u h
  | addPending id u v t sl => exact registryNodup_addPending s id u v t sl h
  | reload id => exact registryNodup_reload s id h
  | uninstall id ex => exact registryNodup_uninstall s id ex h
  | enable id => exact registryNodup_enable s id h
  | disable id => exact registryNodup_disable s id h
  | unload id => exact registryNodup_unload s id h
  | blacklistUpdate ids => exact registryNodup_blacklist s ids h
  | loaded e a => exact registryNodup_loaded s e a hwf h
  | installed e a => exact registryNodup_installed s e a hwf h
  | externalFound id v p loc => exact registryNodup_external s id v p loc h
  | singleLoadDone e => exact registryNodup_singleLoadDone s e hwf h

theorem reachable_registryNodup (s : ServiceState) (h : Reachable s) :
    RegistryNodup s := by
  induction h with
  | init b => simp [RegistryNodup, registryIds, enabledIds, disabledIds, initialState]
  | step op s hr hwf ih => exact registryNodup_step op s hwf ih

theorem findById_eq_none_of_not_mem (l : List Extension) (lid : String)
    (h : lid ∉ l.map Extension.id) : findById l lid = none := by
  rw [findById, List.find?_eq_none]
  intro x hx hc
  exact h (List.mem_map.mpr ⟨x, hx, by simpa using hc⟩)

theorem findById_append_singleton (l : List Extension) (e : Extension)
    (h : e.id ∉ l.map Extension.id) : findById (l ++ [e]) e.id = some e := by
  have hnone : findById l e.id = none := findById_eq_none_of_not_mem l e.id h
  rw [findById] at hnone ⊢
  rw [List.find?_append, hnone]
  simp [List.find?]

theorem finishLoad_prefs (s : ServiceState) (e : Extension) :
    (finishLoad s e).prefs = s.prefs := by
  cases hstate : s.prefs.getExtensionState e.id with
  | enabled => rw [finishLoad_enabled_eq s e hstate]
  | disabled => rw [finishLoad_disabled_eq s e hstate]

theorem getInternal_finishLoad_self (s : ServiceState) (e : Extension)
    (hwf : lowercaseId e.id = e.id) (hmem : e.id ∉ registryIds s) :
    getExtensionByIdInternal (finishLoad s e) e.id true true = some e := by
  have hA : e.id ∉ enabledIds s := fun hm => hmem (List.mem_append.mpr (Or.inl hm))
  have hB : e.id ∉ disabledIds s := fun hm => hmem (List.mem_append.mpr (Or.inr hm))
  cases hstate : s.prefs.getExtensionState e.id with
  | enabled =>
    rw [finishLoad_enabled_eq s e hstate]
    simp only [getExtensionByIdInternal, if_true, hwf]
    rw [findById_append_singleton _ _ hA]
  | disabled =>
    rw [finishLoad_disabled_eq s e hstate]
    simp only [getExtensionByIdInternal, if_true, hwf]
    rw [findById_eq_none_of_not_mem _ _ hA, findById_append_singleton _ _ hB]

theorem registryCount_finishLoad_self (s : ServiceState) (e : Extension)
    (hmem : e.id ∉ registryIds s) :
    registryCount (finishLoad s e) e.id = 1 := by
  have hperm := registryIds_finishLoad_perm s e
  rw [registryCount, hperm.count_eq]
  rw [List.count_cons_self, List.count_eq_zero_of_not_mem hmem]

/-- C7: in every reachable state of the service, the Enabled list and the
Disabled list are disjoint (no identifier occurs in both), and applying any of
the public operations to such a state yields a state whose lists are again
disjoint. -/
theorem c7_registry_disjointness (s : ServiceState) (h : Reachable s) :
    (∀ id, ¬ (id ∈ enabledIds s ∧ id ∈ disabledIds s)) ∧
    (∀ op : Op, op.WF →
      ∀ id, ¬ (id ∈ enabledIds (op.apply s) ∧ id ∈ disabledIds (op.apply s))) := by
  have key : ∀ t, RegistryNodup t →
      ∀ id, ¬ (id ∈ enabledIds t ∧ id ∈ disabledIds t) := by
    intro t ht id hid
    rw [RegistryNodup, registryIds] at ht
    exact (List.nodup_append.mp ht).2.2 hid.1 hid.2
  have hn := reachable_registryNodup s h
  exact ⟨key s hn, fun op hwf id => key _ (registryNodup_step op s hwf hn) id⟩

/-- Witness for C7: the disjointness at a concrete reachable state. -/
theorem c7_registry_disjointness_witness :
    ¬ ("aaa" ∈ enabledIds (initialState true) ∧
       "aaa" ∈ disabledIds (initialState true)) :=
  (c7_registry_disjointness (initialState true) (Reachable.init true)).1 "aaa"

/-- C10: a record rejected by the load guard (extensions disabled and the
record neither a theme nor unpacked nor external) is discarded by
`OnExtensionLoaded`: both lists, the preference store, the pending map, the
notifications and the diagnostics are unchanged, and only the unloaded-path
entry of the identifier is erased. -/
theorem c10_guard_discards (s : ServiceState) (e : Extension) (a : Bool)
    (hEn : s.extensionsEnabled = false) (hTheme : e.isTheme = false)
    (hLoad : e.location ≠ Location.load) (hExt : e.location.isExternal = false) :
    (OnExtensionLoaded s e a).extensions = s.extensions ∧
    (OnExtensionLoaded s e a).disabledExtensions = s.disabledExtensions ∧
    (OnExtensionLoaded s e a).prefs = s.prefs ∧
    (OnExtensionLoaded s e a).pendingExtensions = s.pendingExtensions ∧
    (OnExtensionLoaded s e a).notifications = s.notifications ∧
    (OnExtensionLoaded s e a).diagnostics = s.diagnostics ∧
    (OnExtensionLoaded s e a).unloadedExtensionPaths =
      eraseAssoc s.unloadedExtensionPaths e.id := by
  have hg : loadGuard s e = false := by
    have hl : (e.location == Location.load) = false := by
      simp [hLoad]
    simp [loadGuard, hEn, hTheme, hExt, hl]
  rw [loaded_noguard_eq s e a hg]
  exact ⟨rfl, rfl, rfl, rfl, rfl, rfl, rfl⟩

/-- Witness for C10: a plain internal record loaded while extensions are
disabled is dropped without touching the registry. -/
theorem c10_guard_discards_witness :
    (OnExtensionLoaded (initialState false) fixPlain1 true).extensions =
      (initialState false).extensions ∧
    (OnExtensionLoaded (initialState false) fixPlain1 true).notifications =
      (initialState false).notifications := by
  have h := c10_guard_discards (initialState false) fixPlain1 true
    (by decide) (by decide) (by decide) (by decide)
  exact ⟨h.1, h.2.2.2.2.1⟩

/-- Counterexample to C4 as stated: with extensions disabled, a registered
theme and a stale plain internal record for the same identifier, the stale
load is dropped by the guard without any overinstall diagnostic or
notification, while the claim requires a duplicate-load diagnostic for every
stale load over a registered record. -/
theorem c4_counterexample :
    getExtensionByIdInternal fixOffTheme2 "aaa" true true = some fixTheme2 ∧
    ¬ 0 < Version.compareTo fixPlain1.version fixTheme2.version ∧
    (OnExtensionLoaded fixOffTheme2 fixPlain1 false).notifications =
      fixOffTheme2.notifications ∧
    (OnExtensionLoaded fixOffTheme2 fixPlain1 false).diagnostics =
      fixOffTheme2.diagnostics := by
  refine ⟨by decide, by decide, by decide, by decide⟩

/-- C4 (amended): provided the load guard admits the new record (extensions
enabled, or the record a theme, unpacked, or external), loading a record whose
version is less than or equal to the registered version of the same identifier
is rejected: an overinstall load error notification and a composed diagnostic
are reported, and the two lists, the preference store and the pending map are
unchanged. -/
theorem c4_stale_load_rejected (s : ServiceState) (e old : Extension) (a : Bool)
    (hg : loadGuard s e = true)
    (hold : getExtensionByIdInternal s e.id true true = some old)
    (hv : ¬ 0 < Version.compareTo e.version old.version) :
    (OnExtensionLoaded s e a).extensions = s.extensions ∧
    (OnExtensionLoaded s e a).disabledExtensions = s.disabledExtensions ∧
    (OnExtensionLoaded s e a).prefs = s.prefs ∧
    (OnExtensionLoaded s e a).pendingExtensions = s.pendingExtensions ∧
    (OnExtensionLoaded s e a).notifications = s.notifications ++
      [.extensionOverinstallError ("Duplicate extension load attempt: " ++ e.id)] ∧
    (OnExtensionLoaded s e a).diagnostics = s.diagnostics ++
      ["Could not load extension from " ++ e.path ++ ". " ++
        ("Duplicate extension load attempt: " ++ e.id)] := by
  rw [loaded_stale_eq s e a old hg hold hv]
  exact ⟨rfl, rfl, rfl, rfl, rfl, rfl⟩

/-- Witness for C4 (amended): reloading the version already registered leaves
the registry unchanged and emits the overinstall diagnostic. -/
theorem c4_stale_load_rejected_witness :
    (OnExtensionLoaded fixOn1 fixPlain1 true).extensions = fixOn1.extensions ∧
    (OnExtensionLoaded fixOn1 fixPlain1 true).notifications =
      fixOn1.notifications ++
        [.extensionOverinstallError
          ("Duplicate extension load attempt: " ++ fixPlain1.id)] := by
  have h := c4_stale_load_rejected fixOn1 fixPlain1 fixPlain1 true
    (by decide) (by decide) (by decide)
  exact ⟨h.1, h.2.2.2.2.1⟩

/-- Counterexample to C1 as stated: with extensions disabled, a theme is
registered for an identifier and a strictly newer plain internal record for
the same identifier arrives with privilege increase authorized; the claim
requires the new record to replace the old one, but the guard drops the new
record and the old registration stays. -/
theorem c1_counterexample :
    getExtensionByIdInternal fixOffTheme1 "aaa" true true = some fixTheme1 ∧
    0 < Version.compareTo fixPlain2.version fixTheme1.version ∧
    ¬ (getExtensionByIdInternal (OnExtensionLoaded fixOffTheme1 fixPlain2 true)
        "aaa" true true = some fixPlain2) := by
  refine ⟨by decide, by decide, by decide⟩

theorem upgradePrefs_true_eq (s : ServiceState) (e : Extension) :
    upgradePrefs s e true = s := rfl

theorem upgradePrefs_false_eq (s : ServiceState) (e : Extension) :
    upgradePrefs s e false =
      { s with prefs :=
          (s.prefs.setExtensionState e.id .disabled
            ).setDidExtensionEscalatePermissions e.id true } := rfl

theorem finishLoad_upgradeEsc_spec (t : ServiceState) (e : Extension)
    (hwf : lowercaseId e.id = e.id) (hrem : e.id ∉ registryIds t) :
    getExtensionByIdInternal (finishLoad (upgradePrefs t e false) e)
      e.id true true = some e ∧
    registryCount (finishLoad (upgradePrefs t e false) e) e.id = 1 ∧
    e ∈ (finishLoad (upgradePrefs t e false) e).disabledExtensions ∧
    e.id ∉ enabledIds (finishLoad (upgradePrefs t e false) e) ∧
    (finishLoad (upgradePrefs t e false) e).prefs.getExtensionState e.id =
      ExtensionState.disabled ∧
    lookupAssoc (finishLoad (upgradePrefs t e false) e).prefs.escalatedMap e.id =
      some true := by
  rw [upgradePrefs_false_eq]
  have hstate2 : ({ t with prefs :=
      (t.prefs.setExtensionState e.id .disabled
        ).setDidExtensionEscalatePermissions e.id true } : ServiceState
      ).prefs.getExtensionState e.id = ExtensionState.disabled := by
    simp [ExtensionPrefs.getExtensionState, ExtensionPrefs.setExtensionState,
      ExtensionPrefs.setDidExtensionEscalatePermissions, lookupAssoc_setAssoc_self]
  have hrem2 : e.id ∉ registryIds { t with prefs :=
      (t.prefs.setExtensionState e.id .disabled
        ).setDidExtensionEscalatePermissions e.id true } := hrem
  refine ⟨getInternal_finishLoad_self _ e hwf hrem2,
    registryCount_finishLoad_self _ e hrem2, ?_, ?_, ?_, ?_⟩
  · rw [finishLoad_disabled_eq _ e hstate2]
    simp
  · rw [finishLoad_disabled_eq _ e hstate2]
    intro hm
    exact hrem (List.mem_append.mpr (Or.inl hm))
  · rw [finishLoad_prefs]
    exact hstate2
  · rw [finishLoad_prefs]
    simp [ExtensionPrefs.setExtensionState,
      ExtensionPrefs.setDidExtensionEscalatePermissions, lookupAssoc_setAssoc_self]

/-- C1 (amended): provided the load guard admits the new record (extensions
enabled, or the record a theme, unpacked, or external), loading a record that
is strictly newer than the registered record of the same identifier performs
the upgrade arbitration: when the caller authorized a privilege increase or no
privilege increase occurred, the old record is unloaded and the new record is
registered in its place as the unique record of the identifier; otherwise the
old record is still unloaded, the new record lands in the Disabled list (and
not in the Enabled list), and the disabled state and the permissions-escalated
flag are persisted. -/
theorem c1_upgrade_arbitration (s : ServiceState) (e old : Extension) (a : Bool)
    (hwf : lowercaseId e.id = e.id)
    (hn : RegistryNodup s)
    (hg : loadGuard s e = true)
    (hold : getExtensionByIdInternal s e.id true true = some old)
    (hv : 0 < Version.compareTo e.version old.version) :
    ((a = true ∨ Extension.IsPrivilegeIncrease old e = false) →
      getExtensionByIdInternal (OnExtensionLoaded s e a) e.id true true = some e ∧
      registryCount (OnExtensionLoaded s e a) e.id = 1) ∧
    ((a = false ∧ Extension.IsPrivilegeIncrease old e = true) →
      getExtensionByIdInternal (OnExtensionLoaded s e a) e.id true true = some e ∧
      registryCount (OnExtensionLoaded s e a) e.id = 1 ∧
      e ∈ (OnExtensionLoaded s e a).disabledExtensions ∧
      e.id ∉ enabledIds (OnExtensionLoaded s e a) ∧
      (OnExtensionLoaded s e a).prefs.getExtensionState e.id = .disabled ∧
      lookupAssoc (OnExtensionLoaded s e a).prefs.escalatedMap e.id = some true) := by
  rw [loaded_upgrade_eq s e a old hg hold hv]
  have holdid : old.id = e.id := (getInternal_some_id s e.id old hold).trans hwf
  have h0 : RegistryNodup
      { s with unloadedExtensionPaths := eraseAssoc s.unloadedExtensionPaths e.id } := hn
  have h1 : getExtensionByIdInternal
      { s with unloadedExtensionPaths := eraseAssoc s.unloadedExtensionPaths e.id }
      old.id true true = some old := by
    rw [holdid]; exact hold
  have hrem : e.id ∉ registryIds
      (UnloadExtension
        { s with unloadedExtensionPaths := eraseAssoc s.unloadedExtensionPaths e.id }
        old.id) := by
    have hrem0 := unload_removes _ old.id old h1 h0
    have hl : lowercaseId old.id = e.id := by rw [holdid, hwf]
    rw [hl] at hrem0
    exact hrem0
  constructor
  · intro hcase
    have hb : (a || !(Extension.IsPrivilegeIncrease old e)) = true := by
      rcases hcase with h | h
      · simp [h]
      · simp [h]
    rw [hb, upgradePrefs_true_eq]
    exact ⟨getInternal_finishLoad_self _ e hwf hrem,
      registryCount_finishLoad_self _ e hrem⟩
  · intro hcase
    obtain ⟨ha, hpi⟩ := hcase
    have hb : (a || !(Extension.IsPrivilegeIncrease old e)) = false := by
      simp [ha, hpi]
    rw [hb]
    exact finishLoad_upgradeEsc_spec _ e hwf hrem

/-- Witness for C1 (amended): a silent upgrade of a plain extension with an
unchanged permission set replaces the old record by the new one. -/
theorem c1_upgrade_arbitration_witness :
    getExtensionByIdInternal (OnExtensionLoaded fixOn1 fixPlain2 false)
      fixPlain2.id true true = some fixPlain2 ∧
    registryCount (OnExtensionLoaded fixOn1 fixPlain2 false) fixPlain2.id = 1 := by
  have h := c1_upgrade_arbitration fixOn1 fixPlain2 fixPlain1 false
    (by decide) (by unfold RegistryNodup; decide) (by decide) (by decide) (by decide)
  exact h.1 (Or.inr (by decide))

/-- C3: when a pending entry exists for the installed identifier and its theme
flag differs from the installed bundle, `OnExtensionInstalled` rejects the
installation: the bundle directory is scheduled for deletion and the two
lists, the preference store, the pending map and the notification log are all
unchanged. -/
theorem c3_theme_mismatch_rejected (s : ServiceState) (e : Extension) (a : Bool)
    (pi : PendingExtensionInfo)
    (hp : lookupAssoc s.pendingExtensions e.id = some pi)
    (hm : pi.isTheme ≠ e.isTheme) :
    (OnExtensionInstalled s e a).extensions = s.extensions ∧
    (OnExtensionInstalled s e a).disabledExtensions = s.disabledExtensions ∧
    (OnExtensionInstalled s e a).prefs = s.prefs ∧
    (OnExtensionInstalled s e a).pendingExtensions = s.pendingExtensions ∧
    (OnExtensionInstalled s e a).notifications = s.notifications ∧
    (OnExtensionInstalled s e a).fileDeletions = s.fileDeletions ++ [e.path] := by
  have hmb : (pi.isTheme != e.isTheme) = true := bne_iff_ne.mpr hm
  simp only [OnExtensionInstalled, hp, hmb, if_true]
  simp

/-- Witness for C3: a pending theme entry rejects a plain installed bundle. -/
theorem c3_theme_mismatch_rejected_witness :
    (OnExtensionInstalled fixPendTheme fixPlain1 true).extensions =
      fixPendTheme.extensions ∧
    (OnExtensionInstalled fixPendTheme fixPlain1 true).pendingExtensions =
      fixPendTheme.pendingExtensions ∧
    (OnExtensionInstalled fixPendTheme fixPlain1 true).fileDeletions =
      fixPendTheme.fileDeletions ++ [fixPlain1.path] := by
  have h := c3_theme_mismatch_rejected fixPendTheme fixPlain1 true
    fixPendThemeInfo (by decide) (by decide)
  exact ⟨h.1, h.2.2.2.1, h.2.2.2.2.2⟩

/-- C5: an update for an identifier that is neither pending nor registered is
rejected: no installer is created, the supplied bundle is scheduled for
deletion, and the two lists and the pending map are unchanged. -/
theorem c5_unknown_update_rejected (s : ServiceState) (id path url : String)
    (hp : lookupAssoc s.pendingExtensions id = none)
    (hr : getExtensionByIdInternal s id true true = none) :
    (UpdateExtension s id path url).installRequests = s.installRequests ∧
    (UpdateExtension s id path url).extensions = s.extensions ∧
    (UpdateExtension s id path url).disabledExtensions = s.disabledExtensions ∧
    (UpdateExtension s id path url).pendingExtensions = s.pendingExtensions ∧
    (UpdateExtension s id path url).prefs = s.prefs ∧
    (UpdateExtension s id path url).fileDeletions = s.fileDeletions ++ [path] := by
  simp only [UpdateExtension, hp, hr, Option.isNone_none, and_self, if_true]

/-- Witness for C5: updating an unknown identifier discards the bundle. -/
theorem c5_unknown_update_rejected_witness :
    (UpdateExtension (initialState true) "zzz" "/tmp/z.crx" "http://z").installRequests =
      (initialState true).installRequests ∧
    (UpdateExtension (initialState true) "zzz" "/tmp/z.crx" "http://z").fileDeletions =
      (initialState true).fileDeletions ++ ["/tmp/z.crx"] := by
  have h := c5_unknown_update_rejected (initialState true) "zzz" "/tmp/z.crx"
    "http://z" (by decide) (by decide)
  exact ⟨h.1, h.2.2.2.2.2⟩

/-- C6: for an identifier registered in the Enabled list, external discovery
installs only a strictly newer version: an older registered version triggers
an installer creation, an equal version returns with no effect at all, and a
newer registered version only logs a warning, the registry being untouched in
the two rejecting cases. -/
theorem c6_external_version_arbitration (s : ServiceState) (id : String)
    (version : Version) (path : String) (loc : Location) (existing : Extension)
    (hfe : findById s.extensions (lowercaseId id) = some existing) :
    (Version.compareTo existing.version version = -1 →
      OnExternalExtensionFound s id version path loc =
        { s with installRequests := s.installRequests ++
            [{ crxPath := path, expectedId := some id, installSource := some loc,
               allowPrivilegeIncrease := true, deleteSource := false,
               silent := true, originalUrl := none }] }) ∧
    (Version.compareTo existing.version version = 0 →
      OnExternalExtensionFound s id version path loc = s) ∧
    (Version.compareTo existing.version version = 1 →
      OnExternalExtensionFound s id version path loc =
        { s with diagnostics := s.diagnostics ++
            ["Found external version of extension " ++ id ++
             " that is older than current version. Keeping current version."] }) := by
  have hg : GetExtensionById s id true = some existing := by
    rw [GetExtensionById]
    exact getInternal_eq_enabled s id existing hfe
  refine ⟨?_, ?_, ?_⟩
  · intro hc
    simp [OnExternalExtensionFound, hg, hc]
  · intro hc
    simp [OnExternalExtensionFound, hg, hc]
  · intro hc
    simp [OnExternalExtensionFound, hg, hc]

/-- Witness for C6: an older external discovery for the enabled identifier is
rejected with a warning and no installer. -/
theorem c6_external_version_arbitration_witness :
    OnExternalExtensionFound fixOn1 "aaa" [0, 5] "/fix/ext.crx"
      Location.externalPref =
    { fixOn1 with diagnostics := fixOn1.diagnostics ++
        ["Found external version of extension " ++ "aaa" ++
         " that is older than current version. Keeping current version."] } := by
  have h := c6_external_version_arbitration fixOn1 "aaa" [0, 5] "/fix/ext.crx"
    Location.externalPref fixPlain1 (by decide)
  exact h.2.2 (by decide)

/-- Counterexample to C9 as stated: disabling an identifier that is not in the
Enabled list changes nothing at all, in particular it reports nothing on the
diagnostic channel, while the claim requires the failure to be reported
there. -/
theorem c9_counterexample :
    DisableExtension (initialState true) "zzz" = initialState true ∧
    (DisableExtension (initialState true) "zzz").diagnostics = [] := by
  exact ⟨by decide, by decide⟩

/-- C9 (amended): enabling an identifier that is not in the Disabled list is a
no-op that reports on the diagnostic channel, while disabling an identifier
that is not in the Enabled list is a silent no-op; in both cases the lists,
the preference store and the notification log are unchanged. -/
theorem c9_enable_disable_noop (s : ServiceState) (id : String) :
    (getExtensionByIdInternal s id false true = none →
      EnableExtension s id =
        { s with diagnostics := s.diagnostics ++
            ["Trying to enable an extension that is not disabled."] }) ∧
    (getExtensionByIdInternal s id true false = none →
      DisableExtension s id = s) := by
  constructor
  · intro h
    exact enable_none_eq s id h
  · intro h
    exact disable_none_eq s id h

/-- Witness for C9 (amended): on the empty service both failures behave as
stated. -/
theorem c9_enable_disable_noop_witness :
    EnableExtension (initialState true) "aaa" =
      { initialState true with diagnostics :=
          ["Trying to enable an extension that is not disabled."] } ∧
    DisableExtension (initialState true) "aaa" = initialState true := by
  have h := c9_enable_disable_noop (initialState true) "aaa"
  exact ⟨h.1 (by decide), h.2 (by decide)⟩

theorem contains_eq_true_iff_mem (l : List String) (x : String) :
    l.contains x = true ↔ x ∈ l := by
  rw [List.contains_iff_exists_mem_beq]
  constructor
  · rintro ⟨y, hy, hb⟩
    rw [beq_iff_eq] at hb
    rw [hb]
    exact hy
  · intro hx
    exact ⟨x, hx, by simp⟩

theorem eraseById_eq_filter (l : List Extension) (lid : String)
    (h : (l.map Extension.id).Nodup) :
    eraseById l lid = l.filter (fun e => !(e.id == lid)) := by
  induction l with
  | nil => rfl
  | cons x t ih =>
    rw [List.map_cons, List.nodup_cons] at h
    by_cases hp : (x.id == lid) = true
    · have hgoal : List.filter (fun e => !(e.id == lid)) t = t := by
        rw [List.filter_eq_self]
        intro e he
        have hxid : x.id = lid := by simpa using hp
        have hne : e.id ≠ lid := by
          intro hc
          exact h.1 (List.mem_map.mpr ⟨e, he, by rw [hc, hxid]⟩)
        simp [hne]
      simp [eraseById, List.eraseP_cons, List.filter_cons, hp, hgoal]
    · have hpf : (x.id == lid) = false := by simpa using hp
      have ht := ih h.2
      rw [eraseById] at ht
      simp [eraseById, List.eraseP_cons, List.filter_cons, hpf, ht]

theorem foldl_unload_spec (rem : List String) (s : ServiceState)
    (hn : RegistryNodup s)
    (hwfE : ∀ e ∈ s.extensions, lowercaseId e.id = e.id)
    (hnd : rem.Nodup)
    (hmem : ∀ r ∈ rem, r ∈ s.extensions.map Extension.id) :
    (rem.foldl UnloadExtension s).extensions =
      s.extensions.filter (fun e => !(rem.contains e.id)) ∧
    (rem.foldl UnloadExtension s).disabledExtensions = s.disabledExtensions ∧
    (rem.foldl UnloadExtension s).prefs = s.prefs := by
  induction rem generalizing s with
  | nil =>
    refine ⟨?_, rfl, rfl⟩
    have hfe : s.extensions.filter
        (fun e => !(([] : List String).contains e.id)) = s.extensions := by
      rw [List.filter_eq_self]
      intro e _
      rfl
    exact hfe.symm
  | cons r t ih =>
    rw [List.nodup_cons] at hnd
    have hrmem := hmem r (List.mem_cons_self r t)
    obtain ⟨e0, he0, hid0⟩ := List.mem_map.mp hrmem
    have hlower : lowercaseId r = r := by rw [← hid0]; exact hwfE e0 he0
    have hfind : ∃ e1, findById s.extensions (lowercaseId r) = some e1 := by
      cases hf : findById s.extensions (lowercaseId r) with
      | some e1 => exact ⟨e1, rfl⟩
      | none =>
        rw [hlower] at hf
        exact absurd hrmem (findById_none_not_mem _ _ hf)
    obtain ⟨e1, hf1⟩ := hfind
    have hstep := unload_enabled_eq s r e1 hf1
    have hnE : (s.extensions.map Extension.id).Nodup := by
      have hcopy := hn
      rw [RegistryNodup, registryIds] at hcopy
      exact (List.nodup_append.mp hcopy).1
    have hU_ext : (UnloadExtension s r).extensions =
        s.extensions.filter (fun e => !(e.id == r)) := by
      rw [hstep]
      show eraseById s.extensions (lowercaseId r) = _
      rw [hlower]
      exact eraseById_eq_filter _ _ hnE
    have hU_dis : (UnloadExtension s r).disabledExtensions =
        s.disabledExtensions := by
      rw [hstep]
    have hU_prefs : (UnloadExtension s r).prefs = s.prefs := by
      rw [hstep]
    have hU_nodup : RegistryNodup (UnloadExtension s r) :=
      registryNodup_unload s r hn
    have hU_wfE : ∀ e ∈ (UnloadExtension s r).extensions,
        lowercaseId e.id = e.id := by
      rw [hU_ext]
      intro e he
      exact hwfE e (List.mem_filter.mp he).1
    have hU_mem : ∀ r' ∈ t, r' ∈ (UnloadExtension s r).extensions.map Extension.id := by
      rw [hU_ext]
      intro r' hr'
      obtain ⟨e, he, hide⟩ := List.mem_map.mp (hmem r' (List.mem_cons_of_mem r hr'))
      refine List.mem_map.mpr ⟨e, List.mem_filter.mpr ⟨he, ?_⟩, hide⟩
      have hne : r' ≠ r := fun hc => hnd.1 (hc ▸ hr')
      simp [hide, hne]
    have hcall := ih (UnloadExtension s r) hU_nodup hU_wfE hnd.2 hU_mem
    rw [List.foldl_cons]
    refine ⟨?_, ?_, ?_⟩
    · rw [hcall.1, hU_ext, List.filter_filter]
      apply List.filter_congr
      intro e _
      by_cases h1 : e.id = r
      · simp [List.contains_cons, h1]
      · by_cases h2 : t.contains e.id = true
        · simp [List.contains_cons, h1, h2]
        · have h2f : t.contains e.id = false := by
            cases hcb : t.contains e.id
            · rfl
            · exact absurd hcb h2
          simp [List.contains_cons, h1, h2f]
    · rw [hcall.2.1, hU_dis]
    · rw [hcall.2.2, hU_prefs]

theorem blacklist_eq (s : ServiceState) (bl : List String) :
    UpdateExtensionBlacklist s bl =
      ((s.extensions.filter
          (fun e => (bl.filter Extension.IdIsValid).contains e.id)).map
        (fun e => e.id)).foldl UnloadExtension
        { s with prefs := s.prefs.updateBlacklist (bl.filter Extension.IdIsValid) } := by
  simp only [UpdateExtensionBlacklist]

/-- Counterexample to C2 as stated: a blacklisted extension sitting in the
Disabled list stays registered after the blacklist update, while the claim
requires every registered extension in the set, enabled or disabled, to be
unloaded. -/
theorem c2_counterexample :
    fixDisabledBad.disabledExtensions.map Extension.id = ["bbb"] ∧
    (UpdateExtensionBlacklist fixDisabledBad ["bbb"]).prefs.blacklist = ["bbb"] ∧
    (UpdateExtensionBlacklist fixDisabledBad ["bbb"]).disabledExtensions.map
      Extension.id = ["bbb"] := by
  exact ⟨by decide, by decide, by decide⟩

/-- C2 (amended): applying a blacklist persists the (validity-filtered) set to
the preference store and unloads exactly the extensions of the Enabled list
whose identifier is in the set; extensions in the Disabled list are left
untouched, blacklisted or not. -/
theorem c2_blacklist_unloads_enabled (s : ServiceState) (bl : List String)
    (hn : RegistryNodup s)
    (hwfE : ∀ e ∈ s.extensions, lowercaseId e.id = e.id) :
    (UpdateExtensionBlacklist s bl).prefs.blacklist =
      bl.filter Extension.IdIsValid ∧
    (UpdateExtensionBlacklist s bl).extensions =
      s.extensions.filter
        (fun e => !((bl.filter Extension.IdIsValid).contains e.id)) ∧
    (UpdateExtensionBlacklist s bl).disabledExtensions = s.disabledExtensions := by
  rw [blacklist_eq]
  set A := bl.filter Extension.IdIsValid with hA
  set REM := (s.extensions.filter (fun e => A.contains e.id)).map (fun e => e.id)
    with hREM
  have hnE : (s.extensions.map Extension.id).Nodup := by
    have hcopy := hn
    rw [RegistryNodup, registryIds] at hcopy
    exact (List.nodup_append.mp hcopy).1
  have h1n : RegistryNodup
      { s with prefs := s.prefs.updateBlacklist A } := hn
  have h1wf : ∀ e ∈ ({ s with prefs := s.prefs.updateBlacklist A } :
      ServiceState).extensions, lowercaseId e.id = e.id := hwfE
  have hnd : REM.Nodup := by
    rw [hREM]
    exact ((List.filter_sublist _).map (fun e : Extension => e.id)).nodup hnE
  have hm : ∀ r ∈ REM, r ∈ ({ s with prefs := s.prefs.updateBlacklist A } :
      ServiceState).extensions.map Extension.id := by
    rw [hREM]
    intro r hr
    obtain ⟨e, he, hid⟩ := List.mem_map.mp hr
    exact List.mem_map.mpr ⟨e, (List.mem_filter.mp he).1, hid⟩
  have hcall := foldl_unload_spec REM
    { s with prefs := s.prefs.updateBlacklist A } h1n h1wf hnd hm
  have hLITe : ({ s with prefs := s.prefs.updateBlacklist A } :
      ServiceState).extensions = s.extensions := rfl
  have hLITd : ({ s with prefs := s.prefs.updateBlacklist A } :
      ServiceState).disabledExtensions = s.disabledExtensions := rfl
  have hLITp : ({ s with prefs := s.prefs.updateBlacklist A } :
      ServiceState).prefs = s.prefs.updateBlacklist A := rfl
  rw [hLITe, hLITd, hLITp] at hcall
  refine ⟨?_, ?_, ?_⟩
  · rw [hcall.2.2]
    rfl
  · rw [hcall.1]
    apply List.filter_congr
    intro e he
    have hiff : REM.contains e.id = A.contains e.id := by
      by_cases hc : A.contains e.id = true
      · rw [hc]
        refine (contains_eq_true_iff_mem _ _).mpr ?_
        rw [hREM]
        exact List.mem_map.mpr ⟨e, List.mem_filter.mpr ⟨he, hc⟩, rfl⟩
      · have hcf : A.contains e.id = false := by
          cases hcb : A.contains e.id
          · rfl
          · exact absurd hcb hc
        rw [hcf]
        cases hr : REM.contains e.id
        · rfl
        · exfalso
          obtain ⟨x, hx, hxid⟩ :=
            List.mem_map.mp ((contains_eq_true_iff_mem _ _).mp hr)
          have hxpred := (List.mem_filter.mp hx).2
          rw [hxid] at hxpred
          rw [hxpred] at hcf
          exact Bool.noConfusion hcf
    rw [hiff]
  · rw [hcall.2.1]

/-- Witness for C2 (amended): blacklisting the enabled identifier unloads it
and persists the set. -/
theorem c2_blacklist_unloads_enabled_witness :
    (UpdateExtensionBlacklist fixOn1 ["aaa"]).prefs.blacklist =
      (["aaa"].filter Extension.IdIsValid) ∧
    (UpdateExtensionBlacklist fixOn1 ["aaa"]).extensions =
      fixOn1.extensions.filter
        (fun e : Extension =>
          !((["aaa"].filter Extension.IdIsValid).contains e.id)) ∧
    (UpdateExtensionBlacklist fixOn1 ["aaa"]).disabledExtensions =
      fixOn1.disabledExtensions := by
  have h := c2_blacklist_unloads_enabled fixOn1 ["aaa"]
    (by unfold RegistryNodup; decide) (by decide)
  exact h

theorem unload_common_spec (s : ServiceState) (id : String) (e : Extension)
    (hi : getExtensionByIdInternal s id true true = some e) :
    (UnloadExtension s id).unloadedExtensionPaths =
      setAssoc s.unloadedExtensionPaths e.id e.path ∧
    (UnloadExtension s id).prefs = s.prefs ∧
    (UnloadExtension s id).pendingExtensions = s.pendingExtensions ∧
    (UnloadExtension s id).loadRequests = s.loadRequests ∧
    (UnloadExtension s id).installedLoadRequests = s.installedLoadRequests ∧
    (UnloadExtension s id).extensionsEnabled = s.extensionsEnabled := by
  rcases getInternal_some s id e hi with hf | ⟨hfe, hfd⟩
  · rw [unload_enabled_eq s id e hf]
    exact ⟨rfl, rfl, rfl, rfl, rfl, rfl⟩
  · rw [unload_disabled_eq s id e hfe hfd]
    exact ⟨rfl, rfl, rfl, rfl, rfl, rfl⟩

theorem roundtrip_complete (t : ServiceState) (ext : Extension)
    (hwf : lowercaseId ext.id = ext.id)
    (hloc : ext.location = Location.load)
    (hpend : lookupAssoc t.pendingExtensions ext.id = none)
    (hfe : findById t.extensions (lowercaseId ext.id) = none)
    (hfd : findById t.disabledExtensions (lowercaseId ext.id) = none) :
    getExtensionByIdInternal (LoadSingleExtensionSucceeded t ext) ext.id true true =
      some ext := by
  have hE : ({ ext with location := Location.load } : Extension) = ext := by
    rw [← hloc]
  simp only [LoadSingleExtensionSucceeded, hE]
  simp only [OnExtensionInstalled, hpend, Bool.false_eq_true, if_false,
    Option.isSome_none]
  have hg2 : loadGuard
      { t with prefs := t.prefs.onExtensionInstalled ext,
               notifications := t.notifications ++
                 [if ext.isTheme then Notif.themeInstalled ext.id
                  else Notif.extensionInstalled ext.id] } ext = true := by
    simp [loadGuard, hloc]
  have hn2 : getExtensionByIdInternal
      { t with prefs := t.prefs.onExtensionInstalled ext,
               notifications := t.notifications ++
                 [if ext.isTheme then Notif.themeInstalled ext.id
                  else Notif.extensionInstalled ext.id] }
      ext.id true true = none :=
    getInternal_eq_none _ _ hfe hfd
  rw [loaded_fresh_eq _ ext true hg2 hn2]
  apply getInternal_finishLoad_self _ ext hwf
  rw [hwf] at hfe hfd
  intro hm
  rcases List.mem_append.mp hm with hm1 | hm1
  · exact findById_none_not_mem _ _ hfe hm1
  · exact findById_none_not_mem _ _ hfd hm1

/-- Counterexample to C8 as stated: a registered packaged-component record
with no persisted manifest is unloaded with its path remembered, and the
immediate reload requests a backend load from exactly that path — but the
backend stamps every record it loads with the LOAD location, so the completed
round trip registers a record whose install location differs from the
original: no equivalent record is restored. -/
theorem c8_counterexample :
    getExtensionByIdInternal fixOnComp "ddd" true true = some fixComp ∧
    lookupAssoc fixOnComp.prefs.installedManifests "ddd" = none ∧
    lookupAssoc (UnloadExtension fixOnComp "ddd").unloadedExtensionPaths "ddd" =
      some fixComp.path ∧
    (ReloadExtension (UnloadExtension fixOnComp "ddd") "ddd").loadRequests =
      fixOnComp.loadRequests ++ [fixComp.path] ∧
    getExtensionByIdInternal
      (LoadSingleExtensionSucceeded
        (ReloadExtension (UnloadExtension fixOnComp "ddd") "ddd") fixComp)
      "ddd" true true = some { fixComp with location := Location.load } ∧
    ¬ (getExtensionByIdInternal
        (LoadSingleExtensionSucceeded
          (ReloadExtension (UnloadExtension fixOnComp "ddd") "ddd") fixComp)
        "ddd" true true = some fixComp) := by
  refine ⟨by decide, by decide, by decide, by decide, by decide, by decide⟩

/-- C8 (amended): for a registered unpacked (LOAD-location) record with a
non-empty on-disk path, no persisted manifest and no pending entry for its
identifier, unloading removes the record from whichever list holds it and
remembers its path in the unloaded-path map; reloading immediately afterwards
requests a backend load of exactly that path; and the successful completion
of that load (the record parsed again from the same path) registers an
identical record.  For a registered record of any other install location the
restoration clause fails, since the backend stamps the reloaded record with
the LOAD location. -/
theorem c8_unload_reload_roundtrip (s : ServiceState) (ext : Extension)
    (hwf : lowercaseId ext.id = ext.id)
    (hn : RegistryNodup s)
    (hreg : getExtensionByIdInternal s ext.id true true = some ext)
    (hman : lookupAssoc s.prefs.installedManifests ext.id = none)
    (hpath : ext.path ≠ "")
    (hpend : lookupAssoc s.pendingExtensions ext.id = none)
    (hloc : ext.location = Location.load) :
    getExtensionByIdInternal (UnloadExtension s ext.id) ext.id true true = none ∧
    lookupAssoc (UnloadExtension s ext.id).unloadedExtensionPaths ext.id =
      some ext.path ∧
    (ReloadExtension (UnloadExtension s ext.id) ext.id).loadRequests =
      s.loadRequests ++ [ext.path] ∧
    getExtensionByIdInternal
      (LoadSingleExtensionSucceeded
        (ReloadExtension (UnloadExtension s ext.id) ext.id) ext)
      ext.id true true = some ext := by
  have hrem0 := unload_removes s ext.id ext hreg hn
  rw [hwf] at hrem0
  obtain ⟨hpaths, hprefs, hpend2, hload2, hinst2, hen2⟩ :=
    unload_common_spec s ext.id ext hreg
  have hA : findById (UnloadExtension s ext.id).extensions
      (lowercaseId ext.id) = none := by
    rw [hwf]
    exact findById_eq_none_of_not_mem _ _
      (fun hm => hrem0 (List.mem_append.mpr (Or.inl hm)))
  have hB : findById (UnloadExtension s ext.id).disabledExtensions
      (lowercaseId ext.id) = none := by
    rw [hwf]
    exact findById_eq_none_of_not_mem _ _
      (fun hm => hrem0 (List.mem_append.mpr (Or.inr hm)))
  have haU : getExtensionByIdInternal (UnloadExtension s ext.id)
      ext.id true true = none := getInternal_eq_none _ _ hA hB
  have hpathmem : lookupAssoc (UnloadExtension s ext.id).unloadedExtensionPaths
      ext.id = some ext.path := by
    rw [hpaths]
    exact lookupAssoc_setAssoc_self _ _ _
  have hcur : GetExtensionById (UnloadExtension s ext.id) ext.id false = none := by
    rw [GetExtensionById, getInternal_enabled_only]
    exact hA
  have hmanU : lookupAssoc (UnloadExtension s ext.id).prefs.installedManifests
      ext.id = none := by
    rw [hprefs]
    exact hman
  have hreload : ReloadExtension (UnloadExtension s ext.id) ext.id =
      { UnloadExtension s ext.id with loadRequests :=
          (UnloadExtension s ext.id).loadRequests ++ [ext.path] } := by
    simp only [ReloadExtension, hcur, hpathmem, hmanU]
    rw [if_neg hpath]
  have hloadreq : (ReloadExtension (UnloadExtension s ext.id) ext.id).loadRequests =
      s.loadRequests ++ [ext.path] := by
    rw [hreload]
    show (UnloadExtension s ext.id).loadRequests ++ [ext.path] = _
    rw [hload2]
  refine ⟨haU, hpathmem, hloadreq, ?_⟩
  rw [hreload]
  have hpendR : lookupAssoc
      ({ UnloadExtension s ext.id with loadRequests :=
          (UnloadExtension s ext.id).loadRequests ++ [ext.path] } :
        ServiceState).pendingExtensions ext.id = none := by
    show lookupAssoc (UnloadExtension s ext.id).pendingExtensions ext.id = none
    rw [hpend2]
    exact hpend
  exact roundtrip_complete _ ext hwf hloc hpendR hA hB

/-- Witness for C8: round trip of the unpacked record on a concrete state. -/
theorem c8_unload_reload_roundtrip_witness :
    (ReloadExtension (UnloadExtension fixOnLoad1 fixLoad1.id) fixLoad1.id).loadRequests =
      fixOnLoad1.loadRequests ++ [fixLoad1.path] ∧
    getExtensionByIdInternal
      (LoadSingleExtensionSucceeded
        (ReloadExtension (UnloadExtension fixOnLoad1 fixLoad1.id) fixLoad1.id)
        fixLoad1)
      fixLoad1.id true true = some fixLoad1 := by
  have h := c8_unload_reload_roundtrip fixOnLoad1 fixLoad1 (by decide)
    (by unfold RegistryNodup; decide) (by decide) (by decide) (by decide)
    (by decide) (by decide)
  exact ⟨h.2.2.1, h.2.2.2⟩

end ExtSvc
